import Mathlib

set_option maxRecDepth 40000

/-!
Verification development for the ZeroLink chunked QR transport protocol and
rule-evaluation engine.

The definitions below are a shallow embedding of the TypeScript source:

* `src/components/qr-code-display.tsx` — the transport encoder
  (`calculateChecksum`, the `chunks` computation);
* `src/components/qr-scanner.tsx` — the transport decoder
  (`handleScanSuccess`, `processAndFinalize`, `resetScanState`);
* `src/hooks/use-logic-runner.ts` — the rule engine
  (`checkCondition`, `evaluateTrigger`, the debounced effect body);
* `src/lib/schema.ts` — the Zod `LogicSchema`.

Modelling conventions:

* JavaScript numbers are modelled as `Int`.  Every numeric literal appearing
  in the documents this application transfers (chunk indices, chunk counts,
  sensor thresholds, durations) is a small integer, for which JavaScript
  float arithmetic is exact.
* JavaScript objects parsed from JSON are modelled by the `Json` inductive;
  object fields keep their insertion order, as `JSON.stringify` and
  `JSON.parse` do.
* React `useState`/`useRef` updates inside one event handler are modelled as
  immediate record updates: the component is treated as the state machine it
  implements, a transition consuming one decoded barcode string.
* `crypto.randomUUID()` and the wall clock (`Date.now()`,
  `new Date().getHours()`) are external inputs; they appear as explicit
  parameters (`sessionId`, `now`, `hour`).
-/

namespace ZeroLink

/-- JSON values as produced by `JSON.parse` / consumed by `JSON.stringify`.
Numbers are modelled as integers (see the conventions above); object fields
are kept in insertion order. -/
inductive Json where
  | null : Json
  | bool (b : Bool) : Json
  | num (n : Int) : Json
  | str (s : String) : Json
  | arr (elems : List Json) : Json
  | obj (fields : List (String × Json)) : Json

mutual

/-- Boolean equality on `Json` (used to build decidable equality). -/
def Json.beq : Json → Json → Bool
  | .null, .null => true
  | .bool a, .bool b => a == b
  | .num a, .num b => a == b
  | .str a, .str b => a == b
  | .arr a, .arr b => Json.beqElems a b
  | .obj a, .obj b => Json.beqMembers a b
  | _, _ => false

/-- Elementwise equality of JSON arrays. -/
def Json.beqElems : List Json → List Json → Bool
  | [], [] => true
  | a :: as_, b :: bs => Json.beq a b && Json.beqElems as_ bs
  | _, _ => false

/-- Memberwise equality of JSON object field lists. -/
def Json.beqMembers : List (String × Json) → List (String × Json) → Bool
  | [], [] => true
  | a :: as_, b :: bs => (a.1 == b.1 && Json.beq a.2 b.2) && Json.beqMembers as_ bs
  | _, _ => false

end

mutual

def Json.beq_iff : ∀ (a b : Json), Json.beq a b = true ↔ a = b
  | .null, .null => by simp [Json.beq]
  | .bool a, .bool b => by simp [Json.beq]
  | .num a, .num b => by simp [Json.beq]
  | .str a, .str b => by simp [Json.beq]
  | .arr a, .arr b => by simp [Json.beq, Json.beqElems_iff a b]
  | .obj a, .obj b => by simp [Json.beq, Json.beqMembers_iff a b]
  | .null, .bool _ => by simp [Json.beq]
  | .null, .num _ => by simp [Json.beq]
  | .null, .str _ => by simp [Json.beq]
  | .null, .arr _ => by simp [Json.beq]
  | .null, .obj _ => by simp [Json.beq]
  | .bool _, .null => by simp [Json.beq]
  | .bool _, .num _ => by simp [Json.beq]
  | .bool _, .str _ => by simp [Json.beq]
  | .bool _, .arr _ => by simp [Json.beq]
  | .bool _, .obj _ => by simp [Json.beq]
  | .num _, .null => by simp [Json.beq]
  | .num _, .bool _ => by simp [Json.beq]
  | .num _, .str _ => by simp [Json.beq]
  | .num _, .arr _ => by simp [Json.beq]
  | .num _, .obj _ => by simp [Json.beq]
  | .str _, .null => by simp [Json.beq]
  | .str _, .bool _ => by simp [Json.beq]
  | .str _, .num _ => by simp [Json.beq]
  | .str _, .arr _ => by simp [Json.beq]
  | .str _, .obj _ => by simp [Json.beq]
  | .arr _, .null => by simp [Json.beq]
  | .arr _, .bool _ => by simp [Json.beq]
  | .arr _, .num _ => by simp [Json.beq]
  | .arr _, .str _ => by simp [Json.beq]
  | .arr _, .obj _ => by simp [Json.beq]
  | .obj _, .null => by simp [Json.beq]
  | .obj _, .bool _ => by simp [Json.beq]
  | .obj _, .num _ => by simp [Json.beq]
  | .obj _, .str _ => by simp [Json.beq]
  | .obj _, .arr _ => by simp [Json.beq]

def Json.beqElems_iff : ∀ (a b : List Json), Json.beqElems a b = true ↔ a = b
  | [], [] => by simp [Json.beqElems]
  | [], _ :: _ => by simp [Json.beqElems]
  | _ :: _, [] => by simp [Json.beqElems]
  | a :: as_, b :: bs => by
      simp [Json.beqElems, Json.beq_iff a b, Json.beqElems_iff as_ bs]

def Json.beqMembers_iff :
    ∀ (a b : List (String × Json)), Json.beqMembers a b = true ↔ a = b
  | [], [] => by simp [Json.beqMembers]
  | [], _ :: _ => by simp [Json.beqMembers]
  | _ :: _, [] => by simp [Json.beqMembers]
  | a :: as_, b :: bs => by
      simp [Json.beqMembers, Json.beq_iff a.2 b.2, Json.beqMembers_iff as_ bs,
        Prod.ext_iff, and_assoc]

end

instance : DecidableEq Json := fun a b => decidable_of_iff _ (Json.beq_iff a b)

/-- JavaScript property access `j.key` on a parsed JSON object: `none` models
`undefined` (non-objects and missing keys).  For duplicate keys
`JSON.parse` keeps the last occurrence, hence the reversed lookup. -/
def Json.getField (j : Json) (key : String) : Option Json :=
  match j with
  | .obj fields => fields.reverse.lookup key
  | _ => none

/-- JavaScript truthiness of a parsed JSON value (`NaN` cannot arise from
JSON text). -/
def Json.truthy : Json → Bool
  | .null => false
  | .bool b => b
  | .num n => n != 0
  | .str s => s != ""
  | .arr _ => true
  | .obj _ => true

/-- Truthiness of `j.key`, with `undefined` (absent) falsy. -/
def Json.truthyField (j : Json) (key : String) : Bool :=
  (j.getField key).elim false Json.truthy

end ZeroLink

namespace ZeroLink

/-- Digit character for bases up to 36, lowercase, as used by JavaScript
`Number.prototype.toString(radix)`. -/
def natDigitChar (n : Nat) : Char :=
  if n < 10 then Char.ofNat (48 + n) else Char.ofNat (87 + n)

/-- Fuel-driven base conversion; `fuel ≥ n` always suffices since the
argument shrinks by a factor `base ≥ 2` each step. -/
def natToDigitsAux (base : Nat) : Nat → Nat → List Char
  | 0, n => [natDigitChar (n % base)]
  | fuel + 1, n =>
      if base ≤ 1 ∨ n < base then [natDigitChar (n % base)]
      else natToDigitsAux base fuel (n / base) ++ [natDigitChar (n % base)]

/-- Digits of `n` in base `base` (most significant first), lowercase.
Models `Number.prototype.toString(radix)` for nonnegative integers. -/
def natToDigitsB (base : Nat) (n : Nat) : List Char := natToDigitsAux base n n

/-- `n.toString(36)` for a natural number. -/
def natToBase36 (n : Nat) : String := String.mk (natToDigitsB 36 n)

/-- Decimal rendering of an integer, as JavaScript `String(x)` /
`JSON.stringify` render integral numbers. -/
def intToString (i : Int) : String :=
  if i < 0 then "-" ++ String.mk (natToDigitsB 10 (-i).toNat)
  else String.mk (natToDigitsB 10 i.toNat)

/-- JavaScript `ToInt32`: wrap an integer into `[-2^31, 2^31)`. -/
def toInt32 (n : Int) : Int := (n + 2147483648) % 4294967296 - 2147483648

/-- One step of the rolling hash in `calculateChecksum`
(qr-code-display.tsx): `hash = ((hash << 5) - hash) + char; hash = hash & hash`.
`<<` operates on 32-bit integers and `& hash` re-truncates to 32 bits. -/
def checksumStep (hash : Int) (c : Nat) : Int :=
  toInt32 (toInt32 (hash * 32) - hash + c)

/-- The 32-bit rolling hash of `calculateChecksum` over the code units of
`data` (all payloads here are in the Basic Multilingual Plane, where
`charCodeAt` agrees with the code point). -/
def checksumHash (data : List Char) : Int :=
  data.foldl (fun h c => checksumStep h c.toNat) 0

/-- `calculateChecksum` from qr-code-display.tsx:
`Math.abs(hash).toString(36)`. -/
def calculateChecksum (data : String) : String :=
  natToBase36 (checksumHash data.data).natAbs

end ZeroLink

namespace ZeroLink

/-- Hex digit (lowercase) for `\u00XX` escapes. -/
def hexDigitChar (n : Nat) : Char := natDigitChar (n % 16)

/-- `JSON.stringify` escaping of one character: `\"`, `\\`, the short control
escapes, `\u00XX` for other control characters, all else verbatim. -/
def escapeCharJson (c : Char) : List Char :=
  if c = Char.ofNat 34 then [Char.ofNat 92, Char.ofNat 34]
  else if c = Char.ofNat 92 then [Char.ofNat 92, Char.ofNat 92]
  else if c = Char.ofNat 8 then [Char.ofNat 92, Char.ofNat 98]
  else if c = Char.ofNat 9 then [Char.ofNat 92, Char.ofNat 116]
  else if c = Char.ofNat 10 then [Char.ofNat 92, Char.ofNat 110]
  else if c = Char.ofNat 12 then [Char.ofNat 92, Char.ofNat 102]
  else if c = Char.ofNat 13 then [Char.ofNat 92, Char.ofNat 114]
  else if c.toNat < 32 then
    [Char.ofNat 92, Char.ofNat 117, Char.ofNat 48, Char.ofNat 48,
     hexDigitChar (c.toNat / 16), hexDigitChar c.toNat]
  else [c]

/-- Body of a `JSON.stringify` string literal (without the quotes). -/
def escapeJsonString (s : String) : String :=
  String.mk (s.data.flatMap escapeCharJson)

/-- A `JSON.stringify` string literal including its quotes. -/
def quoteJson (s : String) : String :=
  String.mk [Char.ofNat 34] ++ escapeJsonString s ++ String.mk [Char.ofNat 34]

mutual

/-- `JSON.stringify` (no spacing), preserving object field insertion order. -/
def jsonStringify : Json → String
  | .null => "null"
  | .bool true => "true"
  | .bool false => "false"
  | .num i => intToString i
  | .str s => quoteJson s
  | .arr elems => "[" ++ stringifyElems elems ++ "]"
  | .obj fields => "\x7b" ++ stringifyMembers fields ++ "\x7d"

/-- Comma-joined serializations of array elements. -/
def stringifyElems : List Json → String
  | [] => ""
  | [e] => jsonStringify e
  | e :: rest => jsonStringify e ++ "," ++ stringifyElems rest

/-- Comma-joined `"key":value` serializations of object fields. -/
def stringifyMembers : List (String × Json) → String
  | [] => ""
  | [f] => quoteJson f.1 ++ ":" ++ jsonStringify f.2
  | f :: rest => quoteJson f.1 ++ ":" ++ jsonStringify f.2 ++ "," ++ stringifyMembers rest

end

end ZeroLink

namespace ZeroLink

/-- JSON whitespace. -/
def jsonWs (c : Char) : Bool :=
  c = Char.ofNat 32 || c = Char.ofNat 9 || c = Char.ofNat 10 || c = Char.ofNat 13

/-- Drop leading JSON whitespace. -/
def skipWs : List Char → List Char
  | [] => []
  | c :: cs => if jsonWs c then skipWs cs else c :: cs

/-- Value of a hex digit, if any. -/
def hexVal (c : Char) : Option Nat :=
  if 48 ≤ c.toNat ∧ c.toNat ≤ 57 then some (c.toNat - 48)
  else if 97 ≤ c.toNat ∧ c.toNat ≤ 102 then some (c.toNat - 87)
  else if 65 ≤ c.toNat ∧ c.toNat ≤ 70 then some (c.toNat - 55)
  else none

/-- Parse the body of a JSON string literal after the opening quote,
returning its characters and the input after the closing quote. -/
def parseStringBody : List Char → Option (List Char × List Char)
  | [] => none
  | c :: cs =>
    if c = Char.ofNat 34 then some ([], cs)
    else if c = Char.ofNat 92 then
      match cs with
      | [] => none
      | e :: cs2 =>
        if e = Char.ofNat 34 then
          (fun r => (Char.ofNat 34 :: r.1, r.2)) <$> parseStringBody cs2
        else if e = Char.ofNat 92 then
          (fun r => (Char.ofNat 92 :: r.1, r.2)) <$> parseStringBody cs2
        else if e = Char.ofNat 47 then
          (fun r => (Char.ofNat 47 :: r.1, r.2)) <$> parseStringBody cs2
        else if e = Char.ofNat 98 then
          (fun r => (Char.ofNat 8 :: r.1, r.2)) <$> parseStringBody cs2
        else if e = Char.ofNat 102 then
          (fun r => (Char.ofNat 12 :: r.1, r.2)) <$> parseStringBody cs2
        else if e = Char.ofNat 110 then
          (fun r => (Char.ofNat 10 :: r.1, r.2)) <$> parseStringBody cs2
        else if e = Char.ofNat 114 then
          (fun r => (Char.ofNat 13 :: r.1, r.2)) <$> parseStringBody cs2
        else if e = Char.ofNat 116 then
          (fun r => (Char.ofNat 9 :: r.1, r.2)) <$> parseStringBody cs2
        else if e = Char.ofNat 117 then
          match cs2 with
          | h1 :: h2 :: h3 :: h4 :: cs3 =>
            match hexVal h1, hexVal h2, hexVal h3, hexVal h4 with
            | some a, some b, some c4, some d =>
              (fun r => (Char.ofNat (((a * 16 + b) * 16 + c4) * 16 + d) :: r.1, r.2)) <$>
                parseStringBody cs3
            | _, _, _, _ => none
          | _ => none
        else none
    else if c.toNat < 32 then none
    else (fun r => (c :: r.1, r.2)) <$> parseStringBody cs

/-- Digit run at the front of the input. -/
def spanDigits (cs : List Char) : List Char × List Char :=
  cs.span fun c => 48 ≤ c.toNat && c.toNat ≤ 57

/-- Natural number denoted by a digit run. -/
def digitsToNat (ds : List Char) : Nat :=
  ds.foldl (fun a c => a * 10 + (c.toNat - 48)) 0

/-- Parse a JSON number.  Restricted to integer literals: every number in
the documents and chunks this application serializes is an integer
(fractional or exponent forms are not produced by the encoder). -/
def parseIntLit (cs : List Char) : Option (Int × List Char) :=
  let core : List Char → Option (Nat × List Char) := fun l =>
    match spanDigits l with
    | ([], _) => none
    | (ds, rest) =>
      match rest with
      | [] => some (digitsToNat ds, [])
      | r :: _ =>
        if r = Char.ofNat 46 || r = Char.ofNat 101 || r = Char.ofNat 69 then none
        else some (digitsToNat ds, rest)
  match cs with
  | c :: cs2 =>
    if c = Char.ofNat 45 then (fun r => (-(r.1 : Int), r.2)) <$> core cs2
    else (fun r => ((r.1 : Int), r.2)) <$> core cs
  | [] => none

/-- Match an exact character sequence at the front of the input. -/
def expectChars : List Char → List Char → Option (List Char)
  | [], cs => some cs
  | p :: ps, c :: cs => if c = p then expectChars ps cs else none
  | _ :: _, [] => none

mutual

/-- Fuel-driven JSON value parser (the model of `JSON.parse`). -/
def parseVal : Nat → List Char → Option (Json × List Char)
  | 0, _ => none
  | fuel + 1, cs =>
    match skipWs cs with
    | [] => none
    | c :: rest =>
      if c = Char.ofNat 34 then
        (fun r => (Json.str (String.mk r.1), r.2)) <$> parseStringBody rest
      else if c = Char.ofNat 123 then
        match skipWs rest with
        | d :: rest2 =>
          if d = Char.ofNat 125 then some (Json.obj [], rest2)
          else (fun r => (Json.obj r.1, r.2)) <$> parseMembers fuel (skipWs rest)
        | [] => none
      else if c = Char.ofNat 91 then
        match skipWs rest with
        | d :: rest2 =>
          if d = Char.ofNat 93 then some (Json.arr [], rest2)
          else (fun r => (Json.arr r.1, r.2)) <$> parseElems fuel (skipWs rest)
        | [] => none
      else if c = Char.ofNat 116 then
        (fun r => (Json.bool true, r)) <$> expectChars [Char.ofNat 114, Char.ofNat 117, Char.ofNat 101] rest
      else if c = Char.ofNat 102 then
        (fun r => (Json.bool false, r)) <$> expectChars [Char.ofNat 97, Char.ofNat 108, Char.ofNat 115, Char.ofNat 101] rest
      else if c = Char.ofNat 110 then
        (fun r => (Json.null, r)) <$> expectChars [Char.ofNat 117, Char.ofNat 108, Char.ofNat 108] rest
      else
        (fun r => (Json.num r.1, r.2)) <$> parseIntLit (c :: rest)

/-- Parse one or more comma-separated object members and the closing brace. -/
def parseMembers : Nat → List Char → Option (List (String × Json) × List Char)
  | 0, _ => none
  | fuel + 1, cs =>
    match skipWs cs with
    | c :: rest =>
      if c = Char.ofNat 34 then
        match parseStringBody rest with
        | some (key, rest2) =>
          match skipWs rest2 with
          | d :: rest3 =>
            if d = Char.ofNat 58 then
              match parseVal fuel rest3 with
              | some (v, rest4) =>
                match skipWs rest4 with
                | e :: rest5 =>
                  if e = Char.ofNat 44 then
                    (fun r => ((String.mk key, v) :: r.1, r.2)) <$> parseMembers fuel rest5
                  else if e = Char.ofNat 125 then
                    some ([(String.mk key, v)], rest5)
                  else none
                | [] => none
              | none => none
            else none
          | [] => none
        | none => none
      else none
    | [] => none

/-- Parse one or more comma-separated array elements and the closing bracket. -/
def parseElems : Nat → List Char → Option (List Json × List Char)
  | 0, _ => none
  | fuel + 1, cs =>
    match parseVal fuel cs with
    | some (v, rest) =>
      match skipWs rest with
      | e :: rest2 =>
        if e = Char.ofNat 44 then
          (fun r => (v :: r.1, r.2)) <$> parseElems fuel rest2
        else if e = Char.ofNat 93 then
          some ([v], rest2)
        else none
      | [] => none
    | none => none

end

/-- The model of `JSON.parse`: `none` models a thrown `SyntaxError`. -/
def jsonParse (s : String) : Option Json :=
  match parseVal (2 * s.length + 4) s.data with
  | some (j, rest) => if (skipWs rest).isEmpty then some j else none
  | none => none

end ZeroLink

namespace ZeroLink

mutual

/-- JavaScript `String(v)` for a parsed JSON value: primitives render as in
JS, arrays comma-join their elements, plain objects render as
`[object Object]`. -/
def jsDisplayString : Json → String
  | .null => "null"
  | .bool true => "true"
  | .bool false => "false"
  | .num i => intToString i
  | .str s => s
  | .arr elems => displayElems elems
  | .obj _ => "[object Object]"

/-- `Array.prototype.toString`: elements joined by commas, with `null`
elements rendered empty. -/
def displayElems : List Json → String
  | [] => ""
  | [.null] => ""
  | [e] => jsDisplayString e
  | .null :: rest => "," ++ displayElems rest
  | e :: rest => jsDisplayString e ++ "," ++ displayElems rest

end

/-- An element under `join`: `null`/`undefined` render empty, everything
else via `String(v)`. -/
def jsJoinElem (j : Json) : String :=
  match j with
  | .null => ""
  | _ => jsDisplayString j

/-- JavaScript `ToNumber` on a string: whitespace-trimmed, empty is `0`,
otherwise an optionally signed digit run; `none` models `NaN`.  Restricted
to integer literals — no fractional-string operand occurs in this
application. -/
def strToNumber (s : String) : Option Int :=
  let t := ((s.data.dropWhile fun c => jsonWs c).reverse.dropWhile fun c => jsonWs c).reverse
  if t.isEmpty then some 0
  else
    let core : List Char → Option Int := fun l =>
      if ¬ l.isEmpty ∧ l.all (fun c => 48 ≤ c.toNat && c.toNat ≤ 57) then
        some (digitsToNat l : Int)
      else none
    match t with
    | c :: rest =>
      if c = Char.ofNat 45 then (fun n => -n) <$> core rest
      else if c = Char.ofNat 43 then core rest
      else core t
    | [] => none

/-- JavaScript `ToNumber` of a parsed JSON value; `none` models `NaN`.
Arrays coerce through their string form, objects give `NaN`. -/
def jsonToNumber (j : Json) : Option Int :=
  match j with
  | .null => some 0
  | .bool b => some (if b then 1 else 0)
  | .num n => some n
  | .str s => strToNumber s
  | .arr elems => strToNumber (displayElems elems)
  | .obj _ => none

end ZeroLink

namespace ZeroLink

/-- The scanner component state relevant to decoding, from qr-scanner.tsx:
`scanSessionId`, `scannedChunks` (a `Map` in insertion order), `totalChunks`,
and the soft-retry refs `lastScannedPart` and `consecutiveScans`. -/
structure ScanState where
  scanSessionId : Option Json
  scannedChunks : List (Json × Json)
  totalChunks : Option Json
  lastScannedPart : Option Json
  consecutiveScans : Int
deriving DecidableEq

/-- `resetScanState` / the state of a freshly mounted scanner. -/
def initialScanState : ScanState :=
  { scanSessionId := none, scannedChunks := [], totalChunks := none,
    lastScannedPart := none, consecutiveScans := 0 }

/-- Observable effects of one scan callback: `loaded` models
`onScanSuccess`, `stopped` models `stopScan(true)`, `sessionMismatch` and
`partsDetected` model the corresponding toasts. -/
inductive ScanEvent where
  | loaded (doc : Json)
  | stopped
  | sessionMismatch
  | partsDetected (total : Json)
deriving DecidableEq

/-- The chunk-shape test of `handleScanSuccess`:
`parsed.sessionId && parsed.chunkIndex !== undefined && parsed.totalChunks
&& parsed.data` (JavaScript truthiness). -/
def isChunkShaped (j : Json) : Bool :=
  j.truthyField "sessionId" && (j.getField "chunkIndex").isSome &&
    j.truthyField "totalChunks" && j.truthyField "data"

/-- `Map.has` on the received-chunks map. -/
def mapHas (m : List (Json × Json)) (k : Json) : Bool :=
  m.any fun kv => kv.1 == k

/-- `scannedChunks.size < totalChunks!` with JavaScript numeric coercion
(`NaN` comparisons are false; a `null` total compares false). -/
def sizeLtTotal (st : ScanState) : Bool :=
  match st.totalChunks with
  | some t =>
    match jsonToNumber t with
    | some n => (st.scannedChunks.length : Int) < n
    | none => false
  | none => false

/-- The store-and-soft-retry tail of the chunk branch of
`handleScanSuccess`: store the chunk if its index is new, then update
`lastScannedPart` / `consecutiveScans` (the counter resets to 0 once the
still-scanning toast fires at 3 consecutive rescans of one part). -/
def storeAndTrackRetry (st : ScanState) (idx dat : Json) : ScanState :=
  let st1 :=
    if mapHas st.scannedChunks idx then st
    else { st with scannedChunks := st.scannedChunks ++ [(idx, dat)] }
  if st1.lastScannedPart == some idx then
    let scans := st1.consecutiveScans + 1
    if 3 ≤ scans ∧ sizeLtTotal st1 then { st1 with consecutiveScans := 0 }
    else { st1 with consecutiveScans := scans }
  else { st1 with lastScannedPart := some idx, consecutiveScans := 1 }

/-- One scan callback on an already-parsed JSON value: the body of
`handleScanSuccess` after `JSON.parse(decodedText)` succeeded.  A
chunk-shaped value opens or extends the session (rejecting other sessions);
any other value is handed to `onScanSuccess` as a complete document and the
scan stops (`stopScan(true)` resets the state). -/
def scanStep (st : ScanState) (parsed : Json) : ScanState × List ScanEvent :=
  if isChunkShaped parsed then
    let sid := (parsed.getField "sessionId").getD .null
    let idx := (parsed.getField "chunkIndex").getD .null
    let tot := (parsed.getField "totalChunks").getD .null
    let dat := (parsed.getField "data").getD .null
    match st.scanSessionId with
    | none =>
        let st1 := { st with scanSessionId := some sid, totalChunks := some tot }
        (storeAndTrackRetry st1 idx dat, [ScanEvent.partsDetected tot])
    | some cur =>
        if cur ≠ sid then (st, [ScanEvent.sessionMismatch])
        else (storeAndTrackRetry st idx dat, [])
  else
    (initialScanState, [ScanEvent.loaded parsed, ScanEvent.stopped])

/-- `handleScanSuccess` from qr-scanner.tsx on one decoded barcode string.
An unparseable frame is ignored (the catch re-parses the same text, which
fails again). -/
def handleScanSuccess (st : ScanState) (decodedText : String) :
    ScanState × List ScanEvent :=
  match jsonParse decodedText with
  | some parsed => scanStep st parsed
  | none => (st, [])

/-- Ascending comparison used by `.sort((a, b) => a[0] - b[0])`; non-numeric
keys (which never occur for stored chunks) compare as equal. -/
def jsonKeyLe (a b : Json) : Bool :=
  match a, b with
  | .num x, .num y => x ≤ y
  | _, _ => true

/-- Stable insertion into a key-sorted entry list. -/
def insertEntry (x : Json × Json) : List (Json × Json) → List (Json × Json)
  | [] => [x]
  | y :: ys => if jsonKeyLe x.1 y.1 then x :: y :: ys else y :: insertEntry x ys

/-- Stable sort of the received entries by chunk index, the model of
`Array.from(scannedChunks.entries()).sort((a, b) => a[0] - b[0])`. -/
def sortEntries : List (Json × Json) → List (Json × Json)
  | [] => []
  | x :: xs => insertEntry x (sortEntries xs)

/-- Outcome of `processAndFinalize`. -/
inductive FinalizeResult where
  | incomplete
  | loaded (doc : Json)
  | assemblyError
deriving DecidableEq

/-- `processAndFinalize` from qr-scanner.tsx: with all parts present, sort
by index, concatenate the data fields, `JSON.parse` the result and emit it
(`stopScan(true)` then resets the state); a parse failure signals an
assembly error and resets the state. -/
def processAndFinalize (st : ScanState) : FinalizeResult × ScanState :=
  let totTruthy := st.totalChunks.elim false Json.truthy
  let sizeMatches :=
    match st.totalChunks with
    | some (.num t) => ((st.scannedChunks.length : Int) == t)
    | _ => false
  if !(totTruthy && sizeMatches) then (.incomplete, st)
  else
    let sorted := sortEntries st.scannedChunks
    let fullString := String.join (sorted.map fun kv => jsJoinElem kv.2)
    match jsonParse fullString with
    | some logic => (.loaded logic, initialScanState)
    | none => (.assemblyError, initialScanState)

/-- Feed a list of parsed barcode values through the scanner. -/
def feed (st : ScanState) (l : List Json) : ScanState :=
  l.foldl (fun s j => (scanStep s j).1) st

/-- The wire object of one encoder chunk (the decoder reads the same four
fields and ignores `checksum`). -/
def mkChunkJson (sid : String) (idx : Int) (tot : Int) (dat : String) : Json :=
  .obj [("sessionId", .str sid), ("chunkIndex", .num idx),
        ("totalChunks", .num tot), ("data", .str dat)]

end ZeroLink

namespace ZeroLink

/-- The `QrChunk` record of qr-code-display.tsx. -/
structure QrChunk where
  sessionId : String
  chunkIndex : Int
  totalChunks : Int
  data : String
  checksum : String
deriving DecidableEq

/-- The JSON object literal built for one chunk (field insertion order as
in the source). -/
def chunkToJson (c : QrChunk) : Json :=
  .obj [("sessionId", .str c.sessionId), ("chunkIndex", .num c.chunkIndex),
        ("totalChunks", .num c.totalChunks), ("data", .str c.data),
        ("checksum", .str c.checksum)]

/-- `JSON.stringify(chunk)`: the barcode payload string for one chunk. -/
def serializeChunk (c : QrChunk) : String := jsonStringify (chunkToJson c)

/-- The worst-case sample chunk used to measure per-chunk overhead. -/
def sampleChunk : QrChunk :=
  { sessionId := String.mk (List.replicate 36 (Char.ofNat 97)),
    chunkIndex := 99, totalChunks := 99, data := "", checksum := "xxxxxx" }

/-- `overhead = JSON.stringify(sampleChunk).length`. -/
def overhead : Nat := (serializeChunk sampleChunk).length

/-- `effectiveChunkSize = Math.max(50, CHUNK_SIZE - overhead)` with
`CHUNK_SIZE = 250`. -/
def effectiveChunkSize : Nat := (max 50 (250 - (overhead : Int))).toNat

/-- `s.substring(a, b)` for `a ≤ b` (the only use here). -/
def jsSubstring (s : String) (a b : Nat) : String :=
  String.mk ((s.data.drop a).take (b - a))

/-- `Math.ceil(logicString.length / effectiveChunkSize) || 1`. -/
def numChunksOf (len : Nat) : Nat :=
  let n := (len + effectiveChunkSize - 1) / effectiveChunkSize
  if n = 0 then 1 else n

/-- The encoder: the `chunks` computation of qr-code-display.tsx applied to
`logicString = JSON.stringify(logic)`, with the per-call random
`sessionId` passed explicitly. -/
def encodeChunks (sessionId : String) (logicString : String) : List QrChunk :=
  let n := numChunksOf logicString.length
  (List.range n).map fun i =>
    let content := jsSubstring logicString (i * effectiveChunkSize) ((i + 1) * effectiveChunkSize)
    { sessionId := sessionId, chunkIndex := (i : Int) + 1, totalChunks := (n : Int),
      data := content, checksum := calculateChecksum content }

/-- The barcode payload strings of one encode call. -/
def encodeStrings (sessionId : String) (logicString : String) : List String :=
  (encodeChunks sessionId logicString).map serializeChunk

end ZeroLink

namespace ZeroLink

/-- The runtime value union `number | boolean | string` of condition and
sensor values, plus `undefined` (an out-of-range property read). -/
inductive JSValue where
  | num (n : Int)
  | bool (b : Bool)
  | str (s : String)
  | undefined
deriving DecidableEq

/-- The sensor enum of the `Condition` type. -/
inductive Sensor where
  | light
  | temperature
  | motion
  | timeOfDay
deriving DecidableEq

/-- The operator enum of the `Condition` type: `gt`, `lt`, `eq`, `ne` stand
for the source literals `>`, `<`, `=`, `!=`. -/
inductive CmpOp where
  | gt
  | lt
  | eq
  | ne
deriving DecidableEq

/-- A `Condition` leaf from types/index.ts. -/
structure Condition where
  sensor : Sensor
  operator : CmpOp
  value : JSValue
deriving DecidableEq

/-- `all` / `any` group kinds. -/
inductive GroupType where
  | all
  | any
deriving DecidableEq

/-- A `Trigger`: a condition leaf or a nested group (the source
discriminates with `'sensor' in trigger`). -/
inductive Trigger where
  | cond (c : Condition)
  | group (type : GroupType) (conditions : List Trigger)

/-- The `SensorData` snapshot from types/index.ts. -/
structure SensorData where
  light : Int
  temperature : Int
  motion : Bool
deriving DecidableEq

/-- `getTimeOfDay` from use-logic-runner.ts, with the ambient wall-clock
hour passed explicitly: day iff the hour is strictly between 6 and 19. -/
def getTimeOfDay (hour : Int) : String :=
  if 6 < hour ∧ hour < 19 then "day" else "night"

/-- `sensorData[condition.sensor]`: the `timeOfDay` property does not exist
on the snapshot, so that read gives `undefined` (it is guarded away in
`checkCondition`). -/
def sensorRead (sensorData : SensorData) : Sensor → JSValue
  | .light => .num sensorData.light
  | .temperature => .num sensorData.temperature
  | .motion => .bool sensorData.motion
  | .timeOfDay => .undefined

/-- JavaScript `ToNumber` of a runtime value; `none` models `NaN`. -/
def valueToNumber : JSValue → Option Int
  | .num n => some n
  | .bool b => some (if b then 1 else 0)
  | .str s => strToNumber s
  | .undefined => none

/-- JavaScript `String(v)` of a runtime value. -/
def valueToString : JSValue → String
  | .num n => intToString n
  | .bool true => "true"
  | .bool false => "false"
  | .str s => s
  | .undefined => "undefined"

/-- JavaScript `a > b`: lexicographic when both operands are strings,
otherwise numeric after coercion, false when either side is `NaN`. -/
def jsGt (a b : JSValue) : Bool :=
  match a, b with
  | .str x, .str y => decide (y < x)
  | _, _ =>
    match valueToNumber a, valueToNumber b with
    | some x, some y => decide (y < x)
    | _, _ => false

/-- JavaScript `a < b` (see `jsGt`). -/
def jsLt (a b : JSValue) : Bool :=
  match a, b with
  | .str x, .str y => decide (x < y)
  | _, _ =>
    match valueToNumber a, valueToNumber b with
    | some x, some y => decide (x < y)
    | _, _ => false

/-- JavaScript strict equality `s === v` with a string left operand. -/
def jsStrictEqStr (s : String) (v : JSValue) : Bool :=
  match v with
  | .str t => s == t
  | _ => false

/-- The loose equality used by `=` and `!=`:
`String(x).toLowerCase() === String(y).toLowerCase()`. -/
def looseEqStrings (a b : JSValue) : Bool :=
  (valueToString a).toLower == (valueToString b).toLower

/-- `checkCondition` from use-logic-runner.ts.  `timeOfDay` is compared to
the wall clock; other sensors are read from the snapshot, with `>`/`<`
numeric (false on `NaN`) and `=`/`!=` on lowercased string forms. -/
def checkCondition (hour : Int) (condition : Condition) (sensorData : SensorData) : Bool :=
  if condition.sensor = Sensor.timeOfDay then
    let currentTimeOfDay := getTimeOfDay hour
    match condition.operator with
    | .eq => jsStrictEqStr currentTimeOfDay condition.value
    | .ne => !(jsStrictEqStr currentTimeOfDay condition.value)
    | _ => false
  else
    let sensorValue := sensorRead sensorData condition.sensor
    match condition.operator with
    | .gt => jsGt sensorValue condition.value
    | .lt => jsLt sensorValue condition.value
    | .eq => looseEqStrings sensorValue condition.value
    | .ne => !(looseEqStrings sensorValue condition.value)

mutual

/-- `evaluateTrigger` from use-logic-runner.ts: leaves via
`checkCondition`, groups via `every` / `some`. -/
def evaluateTrigger (hour : Int) (trigger : Trigger) (sensorData : SensorData) : Bool :=
  match trigger with
  | .cond c => checkCondition hour c sensorData
  | .group .all conds => evalAllTriggers hour conds sensorData
  | .group .any conds => evalAnyTriggers hour conds sensorData

/-- `conditions.every(...)` (vacuously true on an empty sequence). -/
def evalAllTriggers (hour : Int) (conds : List Trigger) (sensorData : SensorData) : Bool :=
  match conds with
  | [] => true
  | t :: ts => evaluateTrigger hour t sensorData && evalAllTriggers hour ts sensorData

/-- `conditions.some(...)` (false on an empty sequence). -/
def evalAnyTriggers (hour : Int) (conds : List Trigger) (sensorData : SensorData) : Bool :=
  match conds with
  | [] => false
  | t :: ts => evaluateTrigger hour t sensorData || evalAnyTriggers hour ts sensorData

end

/-- A field that is either one value or an array of values, before the
runner normalizes it (`Array.isArray(x) ? x : [x]`). -/
inductive OneOrMany (α : Type) where
  | one (a : α)
  | many (l : List α)

/-- `Array.isArray(x) ? x : [x]`. -/
def normalizeOneOrMany {α : Type} : OneOrMany α → List α
  | .one a => [a]
  | .many l => l

/-- A loaded logic document as the runner consumes it: typed triggers, and
actions kept as raw JSON (the runner only needs their truthiness and
identity to dispatch them as events). -/
structure RunLogic where
  name : String
  triggers : OneOrMany Trigger
  actions : OneOrMany Json

/-- The runner state: the `lastTriggerTime` ref (initially 0). -/
structure RunnerState where
  lastTriggerTime : Int
deriving DecidableEq

/-- Initial runner state. -/
def initialRunnerState : RunnerState := { lastTriggerTime := 0 }

/-- `actions[index] || actions[0]` followed by the `if (actionToRun)`
truthiness guard: the action dispatched for trigger `index`, if any. -/
def chooseAction (actions : List Json) (index : Nat) : Option Json :=
  let picked :=
    match actions.get? index with
    | some v => if v.truthy then some v else actions.get? 0
    | none => actions.get? 0
  match picked with
  | some v => if v.truthy then some v else none
  | none => none

/-- One run of the rule-evaluation effect in use-logic-runner.ts at wall
time `now`: return early inside the 2000 ms debounce window; otherwise
evaluate every trigger, dispatch the matching actions, and record `now`
iff at least one trigger evaluated true.  The result is the new state, the
dispatched actions, and whether this pass fired. -/
def runnerPass (hour : Int) (logic : RunLogic) (sensorData : SensorData)
    (now : Int) (st : RunnerState) : RunnerState × List Json × Bool :=
  let triggers := normalizeOneOrMany logic.triggers
  let actions := normalizeOneOrMany logic.actions
  if now - st.lastTriggerTime < 2000 then (st, [], false)
  else
    let somethingTriggered := triggers.any fun t => evaluateTrigger hour t sensorData
    let events := triggers.enum.filterMap fun p =>
      if evaluateTrigger hour p.2 sensorData then chooseAction actions p.1 else none
    let st2 : RunnerState := if somethingTriggered then { lastTriggerTime := now } else st
    (st2, events, somethingTriggered)

/-- The runner state after a sequence of effect runs at the given times
and snapshots. -/
def runnerAfter (hour : Int) (logic : RunLogic) (st : RunnerState)
    (ticks : List (Int × SensorData)) : RunnerState :=
  ticks.foldl (fun s p => (runnerPass hour logic p.2 p.1 s).1) st

/-- The fired-flags trace of successive effect runs at the given times and
snapshots. -/
def runnerSteps (hour : Int) (logic : RunLogic) :
    RunnerState → List (Int × SensorData) → List Bool
  | _, [] => []
  | st, (now, sd) :: rest =>
      let r := runnerPass hour logic sd now st
      r.2.2 :: runnerSteps hour logic r.1 rest

end ZeroLink

namespace ZeroLink

mutual

/-- A computable structural-depth bound on a JSON value, used as recursion
fuel for the recursive Zod trigger schema. -/
def jsonFuel : Json → Nat
  | .arr elems => jsonFuelElems elems + 1
  | .obj fields => jsonFuelMembers fields + 1
  | _ => 1

/-- Depth bound over array elements. -/
def jsonFuelElems : List Json → Nat
  | [] => 0
  | e :: rest => max (jsonFuel e) (jsonFuelElems rest)

/-- Depth bound over object fields. -/
def jsonFuelMembers : List (String × Json) → Nat
  | [] => 0
  | f :: rest => max (jsonFuel f.2) (jsonFuelMembers rest)

end

/-- Zod `BaseConditionSchema` from lib/schema.ts applied to a JSON value:
an object whose `sensor` and `operator` are the given enum strings and
whose `value` is a number, boolean or string. -/
def validConditionJson (j : Json) : Bool :=
  match j with
  | .obj _ =>
    (match j.getField "sensor" with
     | some (.str s) => s == "light" || s == "temperature" || s == "motion" || s == "timeOfDay"
     | _ => false) &&
    (match j.getField "operator" with
     | some (.str o) => o == ">" || o == "<" || o == "=" || o == "!="
     | _ => false) &&
    (match j.getField "value" with
     | some (.num _) => true
     | some (.bool _) => true
     | some (.str _) => true
     | _ => false)
  | _ => false

/-- Zod `TriggerSchema` (recursive union of a condition and an `all`/`any`
group), fuel-driven; `sizeOf` of the value always provides enough fuel. -/
def validTriggerJson : Nat → Json → Bool
  | 0, _ => false
  | fuel + 1, j =>
    validConditionJson j ||
    ((match j.getField "type" with
      | some (.str t) => t == "all" || t == "any"
      | _ => false) &&
     (match j.getField "conditions" with
      | some (.arr l) => l.all (validTriggerJson fuel)
      | _ => false))

/-- Zod `ActionSchema`: a known `type` and an optional object payload with
optionally-typed fields (unknown keys are stripped, never rejected). -/
def validActionJson (j : Json) : Bool :=
  match j with
  | .obj _ =>
    (match j.getField "type" with
     | some (.str t) => t == "flashBackground" || t == "vibrate" || t == "log" || t == "toggle"
     | _ => false) &&
    (match j.getField "payload" with
     | none => true
     | some (.obj _) =>
       let p := (j.getField "payload").getD .null
       (match p.getField "message" with
        | none => true
        | some (.str _) => true
        | _ => false) &&
       (match p.getField "color" with
        | none => true
        | some (.str _) => true
        | _ => false) &&
       (match p.getField "duration" with
        | none => true
        | some (.num _) => true
        | _ => false) &&
       (match p.getField "device" with
        | none => true
        | some (.str d) => d == "light" || d == "fan" || d == "pump" || d == "siren"
        | _ => false) &&
       (match p.getField "state" with
        | none => true
        | some (.str s) => s == "on" || s == "off"
        | _ => false)
     | some _ => false)
  | _ => false

/-- Zod `LogicSchema.safeParse(j).success`: optional string `id`, string
`name`, `triggers` a trigger or array of triggers, `actions` an action or
array of actions. -/
def logicSchemaValidates (j : Json) : Bool :=
  match j with
  | .obj _ =>
    (match j.getField "id" with
     | none => true
     | some (.str _) => true
     | _ => false) &&
    (match j.getField "name" with
     | some (.str _) => true
     | _ => false) &&
    (match j.getField "triggers" with
     | some t =>
       validTriggerJson (jsonFuel t) t ||
       (match t with
        | .arr l => l.all fun x => validTriggerJson (jsonFuel x) x
        | _ => false)
     | none => false) &&
    (match j.getField "actions" with
     | some a =>
       validActionJson a ||
       (match a with
        | .arr l => l.all validActionJson
        | _ => false)
     | none => false)
  | _ => false

end ZeroLink

namespace ZeroLink

/-- A 36-character UUID-shaped session id (the length `crypto.randomUUID()`
always produces). -/
def sid36 : String := "00000000-0000-4000-8000-000000000000"

/-- One schema-valid condition as a JSON object. -/
def condJ : Json :=
  .obj [("sensor", .str "light"), ("operator", .str ">"), ("value", .num 1)]

/-- A small but multi-chunk logic document: its serialization is 170
characters, i.e. two chunks. -/
def bigDoc : Json :=
  .obj [("name", .str "t"), ("triggers", .arr [condJ, condJ, condJ]),
        ("actions", .arr [])]

/-- The serialization `JSON.stringify(bigDoc)` written out (170 characters). -/
def bigStr : String :=
  "\x7b\"name\":\"t\",\"triggers\":[\x7b\"sensor\":\"light\",\"operator\":\">\",\"value\":1\x7d,\x7b\"sensor\":\"light\",\"operator\":\">\",\"value\":1\x7d,\x7b\"sensor\":\"light\",\"operator\":\">\",\"value\":1\x7d],\"actions\":[]\x7d"

/-- The serialized text of a document whose `sensor` value is not one of
the schema enum values. -/
def badLogicStr : String :=
  "\x7b\"name\":\"X\",\"triggers\":[\x7b\"sensor\":\"bogus\",\"operator\":\">\",\"value\":1\x7d],\"actions\":[]\x7d"

/-- The parsed form of `badLogicStr`. -/
def badDoc : Json :=
  .obj [("name", .str "X"),
        ("triggers", .arr [.obj [("sensor", .str "bogus"),
                                 ("operator", .str ">"), ("value", .num 1)]]),
        ("actions", .arr [])]

/-- A demo logic whose single trigger is always true under the demo
snapshot. -/
def demoLogic : RunLogic :=
  { name := "L",
    triggers := .many [.cond { sensor := .temperature, operator := .lt, value := .num 1000 }],
    actions := .many [Json.obj [("type", Json.str "log")]] }

/-- A demo sensor snapshot. -/
def demoSensor : SensorData := { light := 0, temperature := 0, motion := false }

/-- A mid-collection scanner state: session open, one of two chunks
received. -/
def midCollectState : ScanState :=
  { scanSessionId := some (.str "A"), scannedChunks := [(.num 1, .str "x")],
    totalChunks := some (.num 2), lastScannedPart := some (.num 1),
    consecutiveScans := 1 }

end ZeroLink

namespace ZeroLink

theorem escapeCharJson_length_pos (c : Char) : 1 ≤ (escapeCharJson c).length := by
  unfold escapeCharJson
  split_ifs <;> simp

theorem escapeJsonString_length_ge (s : String) : s.length ≤ (escapeJsonString s).length := by
  show s.data.length ≤ (s.data.flatMap escapeCharJson).length
  rw [List.length_flatMap]
  induction s.data with
  | nil => simp
  | cons c cs ih =>
      simp only [List.map_cons, List.sum_cons, List.length_cons, Function.comp_apply]
      have := escapeCharJson_length_pos c
      omega

theorem digitChar_safe (n : Nat) (h : n < 36) :
    32 ≤ (natDigitChar n).toNat ∧ (natDigitChar n).toNat ≠ 34 ∧ (natDigitChar n).toNat ≠ 92 := by
  interval_cases n <;> decide

theorem escapeCharJson_eq_self (c : Char) (h1 : 32 ≤ c.toNat) (h2 : c.toNat ≠ 34)
    (h3 : c.toNat ≠ 92) : escapeCharJson c = [c] := by
  unfold escapeCharJson
  have e34 : c ≠ Char.ofNat 34 := by intro he; subst he; exact h2 rfl
  have e92 : c ≠ Char.ofNat 92 := by intro he; subst he; exact h3 rfl
  have l8 : c ≠ Char.ofNat 8 := by intro he; subst he; revert h1; decide
  have l9 : c ≠ Char.ofNat 9 := by intro he; subst he; revert h1; decide
  have l10 : c ≠ Char.ofNat 10 := by intro he; subst he; revert h1; decide
  have l12 : c ≠ Char.ofNat 12 := by intro he; subst he; revert h1; decide
  have l13 : c ≠ Char.ofNat 13 := by intro he; subst he; revert h1; decide
  simp [e34, e92, l8, l9, l10, l12, l13]
  omega

theorem flatMap_escape_eq_self :
    ∀ (l : List Char), (∀ c ∈ l, 32 ≤ c.toNat ∧ c.toNat ≠ 34 ∧ c.toNat ≠ 92) →
      l.flatMap escapeCharJson = l
  | [], _ => rfl
  | c :: cs, h => by
      have hc := h c (by simp)
      simp only [List.flatMap_cons]
      rw [escapeCharJson_eq_self c hc.1 hc.2.1 hc.2.2,
        flatMap_escape_eq_self cs (fun d hd => h d (by simp [hd]))]
      rfl

theorem escapeJsonString_eq_self (s : String)
    (h : ∀ c ∈ s.data, 32 ≤ c.toNat ∧ c.toNat ≠ 34 ∧ c.toNat ≠ 92) :
    escapeJsonString s = s := by
  show String.mk (s.data.flatMap escapeCharJson) = s
  rw [flatMap_escape_eq_self s.data h]

theorem serializeChunk_length (c : QrChunk) :
    (serializeChunk c).length =
      69 + (escapeJsonString c.sessionId).length + (intToString c.chunkIndex).length
        + (intToString c.totalChunks).length + (escapeJsonString c.data).length
        + (escapeJsonString c.checksum).length := by
  have k1 : (escapeJsonString "sessionId").length = 9 := by decide
  have k2 : (escapeJsonString "chunkIndex").length = 10 := by decide
  have k3 : (escapeJsonString "totalChunks").length = 11 := by decide
  have k4 : (escapeJsonString "data").length = 4 := by decide
  have k5 : (escapeJsonString "checksum").length = 8 := by decide
  have k6 : ("\x7b" : String).length = 1 := by decide
  have k7 : ("\x7d" : String).length = 1 := by decide
  have k8 : (":" : String).length = 1 := by decide
  have k9 : ("," : String).length = 1 := by decide
  have k10 : (String.mk [Char.ofNat 34]).length = 1 := by decide
  simp only [serializeChunk, chunkToJson, jsonStringify, stringifyMembers, quoteJson,
    String.length_append, k1, k2, k3, k4, k5, k6, k7, k8, k9, k10]
  omega

theorem natToDigitsAux_length_le (base : Nat) (hb : 2 ≤ base) :
    ∀ (fuel n k : Nat), 1 ≤ k → n < base ^ k → (natToDigitsAux base fuel n).length ≤ k
  | 0, n, k, hk, _ => by simp [natToDigitsAux]; omega
  | fuel + 1, n, k, hk, h => by
      unfold natToDigitsAux
      split_ifs with hcond
      · simp; omega
      · push_neg at hcond
        have hk2 : 2 ≤ k := by
          by_contra hlt
          have hk1 : k = 1 := by omega
          subst hk1
          simp at h
          omega
        have hpow : base ^ (k - 1) * base = base ^ k := by
          rw [← pow_succ]
          congr 1
          omega
        have hdiv : n / base < base ^ (k - 1) := by
          rw [Nat.div_lt_iff_lt_mul (by omega)]
          omega
        have ih := natToDigitsAux_length_le base hb fuel (n / base) (k - 1) (by omega) hdiv
        simp only [List.length_append, List.length_cons, List.length_nil]
        omega

theorem natToDigitsAux_length_pos (base fuel n : Nat) :
    1 ≤ (natToDigitsAux base fuel n).length := by
  cases fuel with
  | zero => simp [natToDigitsAux]
  | succ fuel =>
      unfold natToDigitsAux
      split_ifs <;> simp

theorem natToDigitsAux_chars (base : Nat) (hb2 : 2 ≤ base) (hb : base ≤ 36) :
    ∀ (fuel n : Nat), ∀ c ∈ natToDigitsAux base fuel n, ∃ m, m < 36 ∧ c = natDigitChar m
  | 0, n, c, hc => by
      simp [natToDigitsAux] at hc
      subst hc
      refine ⟨n % base, ?_, rfl⟩
      have := Nat.mod_lt n (show 0 < base by omega)
      omega
  | fuel + 1, n, c, hc => by
      unfold natToDigitsAux at hc
      split_ifs at hc with hcond
      · simp at hc
        subst hc
        refine ⟨n % base, ?_, rfl⟩
        have := Nat.mod_lt n (show 0 < base by omega)
        omega
      · simp only [List.mem_append, List.mem_singleton] at hc
        rcases hc with hc | hc
        · exact natToDigitsAux_chars base hb2 hb fuel (n / base) c hc
        · subst hc
          refine ⟨n % base, ?_, rfl⟩
          have := Nat.mod_lt n (show 0 < base by omega)
          omega

end ZeroLink

namespace ZeroLink

theorem toInt32_bounds (n : Int) :
    -2147483648 ≤ toInt32 n ∧ toInt32 n < 2147483648 := by
  unfold toInt32
  have h1 := Int.emod_nonneg (n + 2147483648) (show (4294967296 : Int) ≠ 0 by norm_num)
  have h2 := Int.emod_lt_of_pos (n + 2147483648) (show (0 : Int) < 4294967296 by norm_num)
  omega

theorem checksumHash_foldl_bounds :
    ∀ (l : List Char) (h : Int), -2147483648 ≤ h → h < 2147483648 →
      -2147483648 ≤ l.foldl (fun a c => checksumStep a c.toNat) h ∧
        l.foldl (fun a c => checksumStep a c.toNat) h < 2147483648
  | [], h, h1, h2 => ⟨h1, h2⟩
  | c :: cs, h, _, _ => by
      simp only [List.foldl_cons]
      have hb := toInt32_bounds (toInt32 (h * 32) - h + c.toNat)
      exact checksumHash_foldl_bounds cs _ hb.1 hb.2

theorem checksumHash_bounds (l : List Char) :
    -2147483648 ≤ checksumHash l ∧ checksumHash l < 2147483648 :=
  checksumHash_foldl_bounds l 0 (by norm_num) (by norm_num)

theorem calculateChecksum_length_le (s : String) :
    (calculateChecksum s).length ≤ 6 := by
  have hb := checksumHash_bounds s.data
  have habs : (checksumHash s.data).natAbs < 36 ^ 6 := by
    have : (checksumHash s.data).natAbs ≤ 2147483648 := by omega
    omega
  exact natToDigitsAux_length_le 36 (by norm_num) _ _ 6 (by norm_num) habs

theorem calculateChecksum_length_pos (s : String) :
    1 ≤ (calculateChecksum s).length :=
  natToDigitsAux_length_pos 36 _ _

theorem calculateChecksum_escape_free (s : String) :
    escapeJsonString (calculateChecksum s) = calculateChecksum s := by
  apply escapeJsonString_eq_self
  intro c hc
  obtain ⟨m, hm, he⟩ := natToDigitsAux_chars 36 (by norm_num) (by norm_num) _ _ c hc
  subst he
  exact digitChar_safe m hm

theorem intToString_length_le_two (i : Int) (h1 : 1 ≤ i) (h2 : i ≤ 99) :
    (intToString i).length ≤ 2 := by
  unfold intToString
  rw [if_neg (by omega)]
  show (natToDigitsB 10 i.toNat).length ≤ 2
  exact natToDigitsAux_length_le 10 (by norm_num) _ _ 2 (by norm_num) (by omega)

theorem intToString_escape_free (i : Int) (h1 : 0 ≤ i) :
    escapeJsonString (intToString i) = intToString i := by
  unfold intToString
  rw [if_neg (by omega)]
  apply escapeJsonString_eq_self
  intro c hc
  obtain ⟨m, hm, he⟩ := natToDigitsAux_chars 10 (by norm_num) (by norm_num) _ _ c hc
  subst he
  exact digitChar_safe m hm

theorem jsSubstring_length_le (s : String) (a b : Nat) :
    (jsSubstring s a b).length ≤ b - a := by
  show ((s.data.drop a).take (b - a)).length ≤ b - a
  simp [List.length_take]

theorem encodeChunks_length (sid S : String) :
    (encodeChunks sid S).length = numChunksOf S.length := by
  simp [encodeChunks]

theorem effectiveChunkSize_eq : effectiveChunkSize = 135 := by decide

end ZeroLink

namespace ZeroLink

theorem numChunksOf_pos (len : Nat) : 1 ≤ numChunksOf len := by
  simp only [numChunksOf, effectiveChunkSize_eq]
  split <;> omega

theorem encodeChunks_budget (sid S : String)
    (hesc : escapeJsonString sid = sid) (hlen : sid.length = 36)
    (hn : (encodeChunks sid S).length ≤ 99) :
    ∀ c ∈ encodeChunks sid S,
      (serializeChunk c).length ≤ 250 + ((escapeJsonString c.data).length - c.data.length) := by
  intro c hc
  simp only [encodeChunks, List.mem_map, List.mem_range] at hc
  obtain ⟨i, hi, hrec⟩ := hc
  rw [encodeChunks_length sid S] at hn
  subst hrec
  rw [serializeChunk_length]
  simp only
  rw [hesc, calculateChecksum_escape_free, effectiveChunkSize_eq]
  have hidx : (intToString ((i : Int) + 1)).length ≤ 2 := by
    apply intToString_length_le_two <;> omega
  have htot : (intToString ((numChunksOf S.length : Nat) : Int)).length ≤ 2 := by
    have := numChunksOf_pos S.length
    apply intToString_length_le_two <;> omega
  have hck : (calculateChecksum (jsSubstring S (i * 135) ((i + 1) * 135))).length ≤ 6 :=
    calculateChecksum_length_le _
  have hdata : (jsSubstring S (i * 135) ((i + 1) * 135)).length ≤ 135 := by
    have := jsSubstring_length_le S (i * 135) ((i + 1) * 135)
    omega
  have hge := escapeJsonString_length_ge (jsSubstring S (i * 135) ((i + 1) * 135))
  rw [hlen]
  omega

end ZeroLink

namespace ZeroLink

theorem joinSlices (k : Nat) (hk : 0 < k) :
    ∀ (n : Nat) (l : List Char), l.length ≤ n * k →
      (((List.range n).map fun i => (l.drop (i * k)).take k)).flatten = l
  | 0, l, h => by
      simp only [List.range_zero, List.map_nil, List.flatten_nil]
      have hl : l.length = 0 := by omega
      exact (List.length_eq_zero.mp hl).symm
  | n + 1, l, h => by
      rw [List.range_succ_eq_map, List.map_cons, List.map_map, List.flatten_cons]
      have hmap : (List.map ((fun i => (l.drop (i * k)).take k) ∘ Nat.succ) (List.range n))
          = List.map (fun i => ((l.drop k).drop (i * k)).take k) (List.range n) := by
        apply List.map_congr_left
        intro a _
        simp only [Function.comp_apply, List.drop_drop]
        congr 2
        rw [Nat.succ_mul]
        omega
      rw [hmap, joinSlices k hk n (l.drop k) (by simp [Nat.succ_mul] at h ⊢; omega)]
      simp only [Nat.zero_mul, List.drop_zero]
      exact List.take_append_drop k l

theorem stringJoinData : ∀ (l : List String) (a : String),
    (l.foldl (· ++ ·) a).data = a.data ++ (l.map String.data).flatten
  | [], a => by simp
  | s :: rest, a => by
      simp only [List.foldl_cons, List.map_cons, List.flatten_cons]
      rw [stringJoinData rest (a ++ s)]
      simp [String.data_append]

theorem numChunksOf_mul_ge (len : Nat) : len ≤ numChunksOf len * effectiveChunkSize := by
  simp only [numChunksOf, effectiveChunkSize_eq]
  split <;> omega

end ZeroLink

namespace ZeroLink

/-- C3: one encode call over a serialization `S` emits chunks whose `data`
fields, concatenated in `chunkIndex` order, reproduce `S` exactly; every
chunk carries the same `totalChunks`, equal to the number of chunks
emitted, which is `ceil(len(S) / effectiveChunkSize)` with a minimum of 1
even for an empty serialization, and the chunk indices run `1..totalChunks`. -/
theorem c3_encoder_roundtrip (sid S : String) :
    String.join ((encodeChunks sid S).map QrChunk.data) = S ∧
    (encodeChunks sid S).length = numChunksOf S.length ∧
    numChunksOf S.length
      = max 1 ((S.length + effectiveChunkSize - 1) / effectiveChunkSize) ∧
    1 ≤ (encodeChunks sid S).length ∧
    (∀ c ∈ encodeChunks sid S, c.totalChunks = ((encodeChunks sid S).length : Int)) ∧
    (encodeChunks sid S).map QrChunk.chunkIndex
      = List.map (fun i : Nat => (i : Int) + 1) (List.range (encodeChunks sid S).length) := by
  have hk : 0 < effectiveChunkSize := by rw [effectiveChunkSize_eq]; norm_num
  refine ⟨?_, encodeChunks_length sid S, ?_, ?_, ?_, ?_⟩
  · have hmaps : (((encodeChunks sid S).map QrChunk.data).map String.data)
        = (List.range (numChunksOf S.length)).map
            fun i => (S.data.drop (i * 135)).take 135 := by
      simp only [encodeChunks, List.map_map, effectiveChunkSize_eq]
      apply List.map_congr_left
      intro i _
      have harith : (i + 1) * 135 - i * 135 = 135 := by omega
      simp only [Function.comp_apply, jsSubstring, harith]
    have hmul := numChunksOf_mul_ge S.length
    rw [effectiveChunkSize_eq] at hmul
    have hflat := joinSlices 135 (by norm_num) (numChunksOf S.length) S.data hmul
    have hdata : (String.join ((encodeChunks sid S).map QrChunk.data)).data = S.data := by
      show ((((encodeChunks sid S).map QrChunk.data)).foldl (· ++ ·) "").data = S.data
      rw [stringJoinData _ ""]
      simpa [hmaps] using hflat
    calc String.join ((encodeChunks sid S).map QrChunk.data)
        = String.mk (String.join ((encodeChunks sid S).map QrChunk.data)).data := rfl
      _ = String.mk S.data := by rw [hdata]
      _ = S := rfl
  · simp only [numChunksOf, effectiveChunkSize_eq]
    rw [Nat.max_def]
    split_ifs <;> omega
  · rw [encodeChunks_length]
    exact numChunksOf_pos S.length
  · intro c hc
    simp only [encodeChunks, List.mem_map, List.mem_range] at hc
    obtain ⟨i, _, hrec⟩ := hc
    rw [encodeChunks_length]
    rw [← hrec]
  · rw [encodeChunks_length]
    simp only [encodeChunks, List.map_map]
    apply List.map_congr_left
    intro i _
    rfl

end ZeroLink

namespace ZeroLink

/-- C6 (amended): per-chunk overhead is measured by serializing the
worst-case sample chunk, and `effectiveChunkSize = max(50, 250 - overhead)`;
for an encode call of at most 99 chunks with a 36-character escape-free
session id, every emitted serialized chunk stays within the 250-character
budget plus the JSON-escape expansion of its data slice (so exactly 250
only when the slice needs no escaping). -/
theorem c6_chunk_budget (sid S : String)
    (hesc : escapeJsonString sid = sid) (hlen : sid.length = 36)
    (hn : (encodeChunks sid S).length ≤ 99) :
    overhead = (serializeChunk sampleChunk).length ∧
    effectiveChunkSize = (max 50 (250 - (overhead : Int))).toNat ∧
    ∀ c ∈ encodeChunks sid S,
      (serializeChunk c).length ≤ 250 + ((escapeJsonString c.data).length - c.data.length) :=
  ⟨rfl, rfl, encodeChunks_budget sid S hesc hlen hn⟩

theorem c6_chunk_budget_witness :
    (escapeJsonString sid36 = sid36 ∧ sid36.length = 36 ∧
      (encodeChunks sid36 "hello").length ≤ 99) ∧
    ∀ c ∈ encodeChunks sid36 "hello",
      (serializeChunk c).length ≤ 250 + ((escapeJsonString c.data).length - c.data.length) :=
  ⟨⟨by decide, by decide, by decide⟩,
    (c6_chunk_budget sid36 "hello" (by decide) (by decide) (by decide)).2.2⟩

/-- C6 is violated as stated: for the document `bigDoc` (2 chunks, well
under 99), the first emitted chunk's serialized string exceeds the
250-character budget, because the data slice contains quote characters that
JSON escaping doubles. -/
theorem c6_counterexample :
    (encodeChunks sid36 (jsonStringify bigDoc)).length ≤ 99 ∧
    ∃ c ∈ encodeChunks sid36 (jsonStringify bigDoc), 250 < (serializeChunk c).length := by
  have hstr : jsonStringify bigDoc = bigStr := by decide
  have h170 : bigStr.length = 170 := by decide
  have hn2 : numChunksOf bigStr.length = 2 := by rw [h170]; decide
  rw [hstr]
  constructor
  · rw [encodeChunks_length, hn2]
    norm_num
  · refine ⟨⟨sid36, 1, 2, jsSubstring bigStr 0 135,
      calculateChecksum (jsSubstring bigStr 0 135)⟩, ?_, ?_⟩
    · simp only [encodeChunks, List.mem_map, List.mem_range]
      refine ⟨0, by rw [hn2]; norm_num, ?_⟩
      simp only [effectiveChunkSize_eq, hn2, QrChunk.mk.injEq]
      norm_num
    · rw [serializeChunk_length]
      have h1 : (escapeJsonString sid36).length = 36 := by decide
      have h2 : (intToString (1 : Int)).length = 1 := by decide
      have h3 : (intToString (2 : Int)).length = 1 := by decide
      have h4 : (escapeJsonString (jsSubstring bigStr 0 135)).length = 166 := by decide
      have h5 := calculateChecksum_length_pos (jsSubstring bigStr 0 135)
      have h6 := escapeJsonString_length_ge (calculateChecksum (jsSubstring bigStr 0 135))
      dsimp only
      rw [h1, h2, h3, h4]
      omega

end ZeroLink

namespace ZeroLink

/-- C1 is violated by the code: the scanner never computes or compares
checksums.  A chunk whose `checksum` field is `"0"`, not the checksum of
its data `"hello"`, is still stored in the received map (with the session
opened from it), where the protocol documentation requires it to be
rejected. -/
theorem c1_checksum_not_verified :
    calculateChecksum "hello" ≠ "0" ∧
    (handleScanSuccess initialScanState (serializeChunk
        { sessionId := "A", chunkIndex := 1, totalChunks := 2,
          data := "hello", checksum := "0" })).1
      = { scanSessionId := some (.str "A"), scannedChunks := [(.num 1, .str "hello")],
          totalChunks := some (.num 2), lastScannedPart := some (.num 1),
          consecutiveScans := 1 } :=
  ⟨by decide, by decide⟩

/-- C2 is violated by the code: reassembly only `JSON.parse`s the
concatenated data.  A completed session whose document carries the unknown
sensor value `"bogus"` — rejected by the Zod `LogicSchema` — is still
emitted as a loaded document instead of signalling an assembly error. -/
theorem c2_no_schema_validation :
    logicSchemaValidates badDoc = false ∧
    jsonParse badLogicStr = some badDoc ∧
    processAndFinalize (feed initialScanState [mkChunkJson "S" 1 1 badLogicStr])
      = (.loaded badDoc, initialScanState) :=
  ⟨by decide, by decide, by decide⟩

/-- C4 is violated as stated: feeding the same chunk twice leaves the
decoder in a different state than feeding it once — the soft-retry
counter `consecutiveScans` differs — although the set of distinct chunks
fed is the same. -/
theorem c4_counterexample :
    feed initialScanState [mkChunkJson "A" 1 2 "x", mkChunkJson "A" 1 2 "x"]
      ≠ feed initialScanState [mkChunkJson "A" 1 2 "x"] := by decide

/-- C8 is violated as stated: `>` can yield true with a non-numeric
operand.  The boolean `motion` sensor reading `true` coerces to 1, so
`motion > 0` evaluates true even though the sensor value is not numeric. -/
theorem c8_counterexample :
    checkCondition 12 { sensor := .motion, operator := .gt, value := .num 0 }
      { light := 0, temperature := 0, motion := true } = true := by decide

/-- C9: a group with an empty conditions sequence evaluates true under
`all` (vacuous truth) and false under `any`, for every snapshot and hour. -/
theorem c9_empty_group (hour : Int) (sd : SensorData) :
    evaluateTrigger hour (.group .all []) sd = true ∧
    evaluateTrigger hour (.group .any []) sd = false := by
  constructor <;> simp [evaluateTrigger, evalAllTriggers, evalAnyTriggers]

/-- C10: in any decoder state, a scanned string that parses as JSON but
fails the chunk-shape test is emitted as a loaded document with no further
checks and the scan stops; in particular `"\x7b\x7d"` (the empty object)
parses and fails the shape test. -/
theorem c10_nonchunk_json_loaded :
    (∀ (st : ScanState) (s : String) (j : Json), jsonParse s = some j →
        isChunkShaped j = false →
        handleScanSuccess st s
          = (initialScanState, [ScanEvent.loaded j, ScanEvent.stopped])) ∧
    jsonParse "\x7b\x7d" = some (Json.obj []) ∧
    isChunkShaped (Json.obj []) = false := by
  refine ⟨?_, by decide, by decide⟩
  intro st s j hp hshape
  simp [handleScanSuccess, hp, scanStep, hshape]

theorem c10_nonchunk_json_loaded_witness :
    handleScanSuccess midCollectState "\x7b\x7d"
      = (initialScanState, [ScanEvent.loaded (Json.obj []), ScanEvent.stopped]) :=
  c10_nonchunk_json_loaded.1 midCollectState _ _ (by decide) (by decide)

end ZeroLink

namespace ZeroLink

/-- C8 (amended): `>` and `<` compare after JavaScript numeric coercion
(booleans count as 0/1, numeric strings parse), so non-numeric operands can
still satisfy them; but whenever the condition value coerces to NaN — such
as the string "day" — the condition evaluates to false, without throwing. -/
theorem c8_nan_comparison_false (hour : Int) (c : Condition) (sd : SensorData)
    (hop : c.operator = CmpOp.gt ∨ c.operator = CmpOp.lt)
    (hval : valueToNumber c.value = none) :
    checkCondition hour c sd = false := by
  rcases c with ⟨sensor, op, v⟩
  simp only at hop hval
  unfold checkCondition
  split_ifs with hs
  · rcases hop with h | h <;> subst h <;> rfl
  · simp only at hs
    rcases hop with h | h <;> subst h <;>
      cases sensor <;> simp_all [jsGt, jsLt, sensorRead, valueToNumber]

theorem c8_nan_comparison_false_witness :
    valueToNumber (JSValue.str "day") = none ∧
    checkCondition 12
      { sensor := .temperature, operator := .gt, value := .str "day" }
      { light := 0, temperature := 35, motion := false } = false :=
  ⟨by decide, c8_nan_comparison_false 12 _ _ (Or.inl rfl) (by decide)⟩

end ZeroLink

namespace ZeroLink

theorem runnerPass_fired_last (hour : Int) (logic : RunLogic) (sd : SensorData)
    (now : Int) (st : RunnerState)
    (h : (runnerPass hour logic sd now st).2.2 = true) :
    (runnerPass hour logic sd now st).1.lastTriggerTime = now ∧
      2000 ≤ now - st.lastTriggerTime := by
  unfold runnerPass at h ⊢
  by_cases hd : now - st.lastTriggerTime < 2000
  · rw [if_pos hd] at h
    exact absurd h (by simp)
  · rw [if_neg hd] at h ⊢
    dsimp only at h ⊢
    refine ⟨?_, by omega⟩
    rw [if_pos h]

theorem runnerPass_last_cases (hour : Int) (logic : RunLogic) (sd : SensorData)
    (now : Int) (st : RunnerState) :
    (runnerPass hour logic sd now st).1.lastTriggerTime = st.lastTriggerTime ∨
      (runnerPass hour logic sd now st).1.lastTriggerTime = now := by
  unfold runnerPass
  split_ifs with hd
  · exact Or.inl rfl
  · dsimp only
    split
    · exact Or.inr rfl
    · exact Or.inl rfl

theorem runnerAfter_append (hour : Int) (logic : RunLogic) (st : RunnerState)
    (l1 l2 : List (Int × SensorData)) :
    runnerAfter hour logic st (l1 ++ l2)
      = runnerAfter hour logic (runnerAfter hour logic st l1) l2 := by
  unfold runnerAfter
  exact List.foldl_append ..

theorem runnerAfter_last_lb (hour : Int) (logic : RunLogic) :
    ∀ (l : List (Int × SensorData)) (st : RunnerState) (T : Int),
      T ≤ st.lastTriggerTime → (∀ p ∈ l, T ≤ p.1) →
      T ≤ (runnerAfter hour logic st l).lastTriggerTime
  | [], st, T, hst, _ => hst
  | p :: rest, st, T, hst, hl => by
      show T ≤ (runnerAfter hour logic (runnerPass hour logic p.2 p.1 st).1 rest).lastTriggerTime
      apply runnerAfter_last_lb hour logic rest _ T
      · rcases runnerPass_last_cases hour logic p.2 p.1 st with h | h <;> rw [h]
        · exact hst
        · exact hl p (by simp)
      · intro q hq
        exact hl q (by simp [hq])

/-- C7: firing is gated by one document-global 2000 ms debounce window.
In any sequence of evaluation passes at nondecreasing wall times, if the
pass at `(t1, s1)` fires and a later pass at `(t2, s2)` fires, then at
least 2000 ms separate them — so a continuously-true trigger produces at
most one action-firing pass per window, not one per sensor tick. -/
theorem c7_debounce_window (hour : Int) (logic : RunLogic)
    (pre mid rest : List (Int × SensorData)) (t1 t2 : Int) (s1 s2 : SensorData)
    (hmono : List.Pairwise (fun a b : Int × SensorData => a.1 ≤ b.1)
      ((pre ++ (t1, s1) :: mid) ++ (t2, s2) :: rest))
    (h1 : (runnerPass hour logic s1 t1
        (runnerAfter hour logic initialRunnerState pre)).2.2 = true)
    (h2 : (runnerPass hour logic s2 t2
        (runnerAfter hour logic initialRunnerState (pre ++ (t1, s1) :: mid))).2.2 = true) :
    t1 + 2000 ≤ t2 := by
  have hleft := (List.pairwise_append.mp hmono).1
  have hcons := (List.pairwise_append.mp hleft).2.1
  have hmid : ∀ p ∈ mid, t1 ≤ p.1 := fun p hp => (List.pairwise_cons.mp hcons).1 p hp
  have hfl := runnerPass_fired_last hour logic s1 t1
    (runnerAfter hour logic initialRunnerState pre) h1
  have hsplit : runnerAfter hour logic initialRunnerState (pre ++ (t1, s1) :: mid)
      = runnerAfter hour logic
          (runnerPass hour logic s1 t1
            (runnerAfter hour logic initialRunnerState pre)).1 mid := by
    rw [runnerAfter_append]
    rfl
  have hlb : t1 ≤ (runnerAfter hour logic initialRunnerState
      (pre ++ (t1, s1) :: mid)).lastTriggerTime := by
    rw [hsplit]
    exact runnerAfter_last_lb hour logic mid _ t1 (by rw [hfl.1]) hmid
  have hgap := runnerPass_fired_last hour logic s2 t2
    (runnerAfter hour logic initialRunnerState (pre ++ (t1, s1) :: mid)) h2
  omega

theorem c7_debounce_window_witness :
    ((runnerPass 12 demoLogic demoSensor 10000
        (runnerAfter 12 demoLogic initialRunnerState [])).2.2 = true ∧
      (runnerPass 12 demoLogic demoSensor 12001
        (runnerAfter 12 demoLogic initialRunnerState
          ([] ++ (10000, demoSensor) :: [(11000, demoSensor)]))).2.2 = true) ∧
    (10000 : Int) + 2000 ≤ 12001 := by
  refine ⟨⟨by decide, by decide⟩, ?_⟩
  exact c7_debounce_window 12 demoLogic [] [(11000, demoSensor)] [] 10000 12001
    demoSensor demoSensor (by decide) (by decide) (by decide)

end ZeroLink

namespace ZeroLink

theorem storeAndTrackRetry_fields (st : ScanState) (idx dat : Json) :
    (storeAndTrackRetry st idx dat).scanSessionId = st.scanSessionId ∧
    (storeAndTrackRetry st idx dat).totalChunks = st.totalChunks ∧
    (storeAndTrackRetry st idx dat).scannedChunks
      = (if mapHas st.scannedChunks idx then st.scannedChunks
         else st.scannedChunks ++ [(idx, dat)]) := by
  refine ⟨?_, ?_, ?_⟩ <;>
    · unfold storeAndTrackRetry
      dsimp only
      split_ifs <;> rfl

theorem isChunkShaped_fields (j : Json) (h : isChunkShaped j = true) :
    (∃ s, j.getField "sessionId" = some s) ∧
    (∃ k, j.getField "chunkIndex" = some k) ∧
    (∃ t, j.getField "totalChunks" = some t) ∧
    (∃ d, j.getField "data" = some d) := by
  unfold isChunkShaped Json.truthyField at h
  simp only [Bool.and_eq_true, Option.isSome_iff_exists] at h
  obtain ⟨⟨⟨h1, h2⟩, h3⟩, h4⟩ := h
  refine ⟨?_, h2, ?_, ?_⟩
  · cases hs : j.getField "sessionId" with
    | none => rw [hs] at h1; simp at h1
    | some s => exact ⟨s, rfl⟩
  · cases hs : j.getField "totalChunks" with
    | none => rw [hs] at h3; simp at h3
    | some t => exact ⟨t, rfl⟩
  · cases hs : j.getField "data" with
    | none => rw [hs] at h4; simp at h4
    | some d => exact ⟨d, rfl⟩

theorem scanStep_mismatch (st : ScanState) (j : Json) (sid : Json)
    (hshape : isChunkShaped j = true) (hst : st.scanSessionId = some sid)
    (hne : j.getField "sessionId" ≠ some sid) :
    scanStep st j = (st, [ScanEvent.sessionMismatch]) := by
  obtain ⟨⟨s, hs⟩, _, _, _⟩ := isChunkShaped_fields j hshape
  unfold scanStep
  rw [hshape, if_pos rfl, hst, hs]
  simp only [Option.getD_some]
  rw [if_pos (by rw [hs] at hne; intro he; exact hne (by rw [he]))]

end ZeroLink

namespace ZeroLink

theorem feed_session_invariant :
    ∀ (l seen : List Json) (st : ScanState),
      (st.scanSessionId = none → st.scannedChunks = []) →
      (∀ kv ∈ st.scannedChunks, ∃ j ∈ seen, ∃ sid : Json,
          st.scanSessionId = some sid ∧ isChunkShaped j = true ∧
          j.getField "sessionId" = some sid ∧
          j.getField "chunkIndex" = some kv.1 ∧ j.getField "data" = some kv.2) →
      ((feed st l).scanSessionId = none → (feed st l).scannedChunks = []) ∧
      (∀ kv ∈ (feed st l).scannedChunks, ∃ j ∈ seen ++ l, ∃ sid : Json,
          (feed st l).scanSessionId = some sid ∧ isChunkShaped j = true ∧
          j.getField "sessionId" = some sid ∧
          j.getField "chunkIndex" = some kv.1 ∧ j.getField "data" = some kv.2)
  | [], seen, st, h0, h1 => by
      refine ⟨h0, ?_⟩
      simpa using h1
  | j :: l, seen, st, h0, h1 => by
      show ((feed (scanStep st j).1 l).scanSessionId = none →
          (feed (scanStep st j).1 l).scannedChunks = []) ∧ _
      have key : ((scanStep st j).1.scanSessionId = none →
            (scanStep st j).1.scannedChunks = []) ∧
          (∀ kv ∈ (scanStep st j).1.scannedChunks, ∃ j2 ∈ seen ++ [j], ∃ sid : Json,
            (scanStep st j).1.scanSessionId = some sid ∧ isChunkShaped j2 = true ∧
            j2.getField "sessionId" = some sid ∧
            j2.getField "chunkIndex" = some kv.1 ∧ j2.getField "data" = some kv.2) := by
        by_cases hshape : isChunkShaped j = true
        · obtain ⟨⟨s, hs⟩, ⟨k0, hk⟩, ⟨t0, ht⟩, ⟨d0, hd⟩⟩ := isChunkShaped_fields j hshape
          unfold scanStep
          rw [hshape, if_pos rfl, hs, hk, ht, hd]
          simp only [Option.getD_some]
          cases hsess : st.scanSessionId with
          | none =>
              have hempty := h0 hsess
              have hfields := storeAndTrackRetry_fields
                { st with scanSessionId := some s, totalChunks := some t0 } k0 d0
              refine ⟨fun hcontra => ?_, fun kv hkv => ?_⟩
              · rw [hfields.1] at hcontra
                simp at hcontra
              · rw [hfields.2.2] at hkv
                simp only [hempty, mapHas, List.any_nil, Bool.false_eq_true,
                  if_false, List.nil_append, List.mem_singleton] at hkv
                subst hkv
                exact ⟨j, by simp, s, by rw [hfields.1], hshape, hs, hk, hd⟩
          | some cur =>
              dsimp only
              split_ifs with hne
              · refine ⟨fun hcontra => h0 hcontra, fun kv hkv => ?_⟩
                obtain ⟨j2, hj2, sid, hsid, rest⟩ := h1 kv hkv
                exact ⟨j2, List.mem_append.mpr (Or.inl hj2), sid, hsid, rest⟩
              · push_neg at hne
                subst hne
                have hfields := storeAndTrackRetry_fields st k0 d0
                refine ⟨fun hcontra => ?_, fun kv hkv => ?_⟩
                · rw [hfields.1, hsess] at hcontra
                  simp at hcontra
                · rw [hfields.2.2] at hkv
                  split_ifs at hkv with hhas
                  · obtain ⟨j2, hj2, sid, hsid, rest⟩ := h1 kv hkv
                    refine ⟨j2, List.mem_append.mpr (Or.inl hj2), sid, ?_, rest⟩
                    rw [hfields.1, hsid]
                  · rcases List.mem_append.mp hkv with hold | hnew
                    · obtain ⟨j2, hj2, sid, hsid, rest⟩ := h1 kv hold
                      refine ⟨j2, List.mem_append.mpr (Or.inl hj2), sid, ?_, rest⟩
                      rw [hfields.1, hsid]
                    · simp only [List.mem_singleton] at hnew
                      subst hnew
                      refine ⟨j, by simp, cur, ?_, hshape, hs, hk, hd⟩
                      rw [hfields.1, hsess]
        · unfold scanStep
          rw [if_neg (by simpa using hshape)]
          exact ⟨fun _ => rfl, fun kv hkv => by simp [initialScanState] at hkv⟩
      have ih := feed_session_invariant l (seen ++ [j]) (scanStep st j).1 key.1 key.2
      refine ⟨ih.1, fun kv hkv => ?_⟩
      obtain ⟨j2, hj2, rest⟩ := ih.2 kv hkv
      exact ⟨j2, by simpa [List.append_assoc] using hj2, rest⟩

end ZeroLink

namespace ZeroLink

/-- C5: while a session is open, a chunk bearing a different `sessionId` is
never stored — the scan step signals a session mismatch and leaves the
decoder state unchanged — and consequently every entry of the received map
originates from a fed chunk bearing the session's own `sessionId`, so no
cross-session interleaving can enter one reassembly. -/
theorem c5_session_isolation :
    (∀ (st : ScanState) (j : Json) (sid : Json),
        isChunkShaped j = true → st.scanSessionId = some sid →
        j.getField "sessionId" ≠ some sid →
        scanStep st j = (st, [ScanEvent.sessionMismatch])) ∧
    (∀ (l : List Json) (kv : Json × Json),
        kv ∈ (feed initialScanState l).scannedChunks →
        ∃ j ∈ l, ∃ sid : Json,
          (feed initialScanState l).scanSessionId = some sid ∧
          isChunkShaped j = true ∧
          j.getField "sessionId" = some sid ∧
          j.getField "chunkIndex" = some kv.1 ∧ j.getField "data" = some kv.2) := by
  refine ⟨scanStep_mismatch, fun l kv hkv => ?_⟩
  have h := (feed_session_invariant l [] initialScanState (fun _ => rfl)
    (by intro kv hkv2; simp [initialScanState] at hkv2)).2 kv hkv
  simpa using h

theorem c5_session_isolation_witness :
    scanStep (feed initialScanState [mkChunkJson "A" 1 2 "x"]) (mkChunkJson "B" 2 2 "y")
      = (feed initialScanState [mkChunkJson "A" 1 2 "x"], [ScanEvent.sessionMismatch]) :=
  c5_session_isolation.1 _ _ (Json.str "A") (by decide) (by decide) (by decide)

end ZeroLink

namespace ZeroLink

theorem mkChunkJson_getField (sid : String) (k tot : Int) (d : String) :
    (mkChunkJson sid k tot d).getField "sessionId" = some (Json.str sid) ∧
    (mkChunkJson sid k tot d).getField "chunkIndex" = some (Json.num k) ∧
    (mkChunkJson sid k tot d).getField "totalChunks" = some (Json.num tot) ∧
    (mkChunkJson sid k tot d).getField "data" = some (Json.str d) :=
  ⟨rfl, rfl, rfl, rfl⟩

theorem mkChunkJson_shaped (sid : String) (k tot : Int) (d : String)
    (hs : sid ≠ "") (ht : tot ≠ 0) (hd : d ≠ "") :
    isChunkShaped (mkChunkJson sid k tot d) = true := by
  have hfields := mkChunkJson_getField sid k tot d
  unfold isChunkShaped Json.truthyField
  rw [hfields.1, hfields.2.1, hfields.2.2.1, hfields.2.2.2]
  simp [Json.truthy, hs, ht, hd]

theorem mapHas_tagged (f : Int → String) (ks : List Int) (k : Int) :
    (mapHas (ks.map fun k2 => (Json.num k2, Json.str (f k2))) (Json.num k) = true) ↔ k ∈ ks := by
  simp only [mapHas, List.any_eq_true, List.mem_map]
  constructor
  · rintro ⟨kv, ⟨k2, hk2, rfl⟩, hbeq⟩
    simp only [beq_iff_eq, Json.num.injEq] at hbeq
    exact hbeq ▸ hk2
  · intro hk
    exact ⟨(Json.num k, Json.str (f k)), ⟨k, hk, rfl⟩, by simp⟩

end ZeroLink

namespace ZeroLink

theorem feedK_char (sid : String) (tot : Int) (f : Int → String)
    (hs : sid ≠ "") (ht : tot ≠ 0) (hf : ∀ k, f k ≠ "") :
    ∀ (l : List Int) (st : ScanState) (ks0 : List Int),
      st.scanSessionId = some (Json.str sid) →
      st.totalChunks = some (Json.num tot) →
      st.scannedChunks = ks0.map (fun k => (Json.num k, Json.str (f k))) →
      ks0.Nodup →
      ∃ ks : List Int, ks.Nodup ∧ (∀ k, k ∈ ks ↔ (k ∈ ks0 ∨ k ∈ l)) ∧
        (feed st (l.map fun k => mkChunkJson sid k tot (f k))).scanSessionId
          = some (Json.str sid) ∧
        (feed st (l.map fun k => mkChunkJson sid k tot (f k))).totalChunks
          = some (Json.num tot) ∧
        (feed st (l.map fun k => mkChunkJson sid k tot (f k))).scannedChunks
          = ks.map (fun k => (Json.num k, Json.str (f k)))
  | [], st, ks0, h1, h2, h3, h4 => ⟨ks0, h4, by simp, h1, h2, h3⟩
  | k :: l, st, ks0, h1, h2, h3, h4 => by
      have hfields := mkChunkJson_getField sid k tot (f k)
      have hshape := mkChunkJson_shaped sid k tot (f k) hs ht (hf k)
      have hstep : (scanStep st (mkChunkJson sid k tot (f k))).1
          = storeAndTrackRetry st (Json.num k) (Json.str (f k)) := by
        unfold scanStep
        rw [hshape, if_pos rfl, hfields.1, hfields.2.1, hfields.2.2.1, hfields.2.2.2]
        simp only [Option.getD_some]
        rw [h1]
        dsimp only
        rw [if_neg (by simp)]
      have hstore := storeAndTrackRetry_fields st (Json.num k) (Json.str (f k))
      have hks0 : (storeAndTrackRetry st (Json.num k) (Json.str (f k))).scannedChunks
          = (if k ∈ ks0 then ks0 else ks0 ++ [k]).map
              (fun k2 => (Json.num k2, Json.str (f k2))) := by
        rw [hstore.2.2, h3]
        by_cases hk : k ∈ ks0
        · rw [if_pos ((mapHas_tagged f ks0 k).mpr hk), if_pos hk]
        · rw [if_neg (fun hc => hk ((mapHas_tagged f ks0 k).mp hc)), if_neg hk]
          simp
      have hnodup : (if k ∈ ks0 then ks0 else ks0 ++ [k]).Nodup := by
        split_ifs with hk
        · exact h4
        · simp [List.nodup_append, h4, hk]
      show ∃ ks : List Int, _
      have ih := feedK_char sid tot f hs ht hf l
        (scanStep st (mkChunkJson sid k tot (f k))).1
        (if k ∈ ks0 then ks0 else ks0 ++ [k])
        (by rw [hstep, hstore.1, h1]) (by rw [hstep, hstore.2.1, h2])
        (by rw [hstep, hks0]) hnodup
      obtain ⟨ks, hnd, hmem, hrest⟩ := ih
      refine ⟨ks, hnd, fun k2 => ?_, ?_⟩
      · rw [hmem k2]
        by_cases hk : k ∈ ks0
        · rw [if_pos hk]
          simp only [List.mem_cons]
          constructor
          · rintro (h | h)
            · exact Or.inl h
            · exact Or.inr (Or.inr h)
          · rintro (h | h | h)
            · exact Or.inl h
            · exact Or.inl (h ▸ hk)
            · exact Or.inr h
        · rw [if_neg hk]
          simp only [List.mem_append, List.mem_singleton, List.mem_cons]
          tauto
      · show _ ∧ _ ∧ _
        simpa using hrest

end ZeroLink

namespace ZeroLink

theorem feedK_char_init (sid : String) (tot : Int) (f : Int → String)
    (hs : sid ≠ "") (ht : tot ≠ 0) (hf : ∀ k, f k ≠ "") :
    ∀ (l : List Int), l ≠ [] →
      ∃ ks : List Int, ks.Nodup ∧ (∀ k, k ∈ ks ↔ k ∈ l) ∧
        (feed initialScanState (l.map fun k => mkChunkJson sid k tot (f k))).scanSessionId
          = some (Json.str sid) ∧
        (feed initialScanState (l.map fun k => mkChunkJson sid k tot (f k))).totalChunks
          = some (Json.num tot) ∧
        (feed initialScanState (l.map fun k => mkChunkJson sid k tot (f k))).scannedChunks
          = ks.map (fun k => (Json.num k, Json.str (f k)))
  | [], hne => absurd rfl hne
  | k :: l, _ => by
      have hfields := mkChunkJson_getField sid k tot (f k)
      have hshape := mkChunkJson_shaped sid k tot (f k) hs ht (hf k)
      have hstep : (scanStep initialScanState (mkChunkJson sid k tot (f k))).1
          = storeAndTrackRetry
              (ScanState.mk (some (Json.str sid)) [] (some (Json.num tot)) none 0)
              (Json.num k) (Json.str (f k)) := by
        unfold scanStep
        rw [hshape, if_pos rfl, hfields.1, hfields.2.1, hfields.2.2.1, hfields.2.2.2]
        simp only [Option.getD_some]
        rfl
      have hstore := storeAndTrackRetry_fields
        (ScanState.mk (some (Json.str sid)) [] (some (Json.num tot)) none 0)
        (Json.num k) (Json.str (f k))
      have ih := feedK_char sid tot f hs ht hf l
        (scanStep initialScanState (mkChunkJson sid k tot (f k))).1 [k]
        (by rw [hstep, hstore.1])
        (by rw [hstep, hstore.2.1])
        (by
          rw [hstep, hstore.2.2]
          rw [if_neg (by simp [initialScanState, mapHas])]
          simp [initialScanState])
        (by simp)
      obtain ⟨ks, hnd, hmem, hrest⟩ := ih
      refine ⟨ks, hnd, fun k2 => ?_, by simpa using hrest⟩
      rw [hmem k2]
      simp [List.mem_cons]

end ZeroLink

namespace ZeroLink

theorem jsonKeyLe_total (a b : Json) : jsonKeyLe a b = true ∨ jsonKeyLe b a = true := by
  unfold jsonKeyLe
  cases a <;> cases b <;> try exact Or.inl rfl
  rename_i x y
  rcases Int.le_total x y with h | h
  · exact Or.inl (by simpa using h)
  · exact Or.inr (by simpa using h)

theorem insertEntry_perm (x : Json × Json) :
    ∀ (l : List (Json × Json)), (insertEntry x l).Perm (x :: l)
  | [] => List.Perm.refl _
  | y :: ys => by
      unfold insertEntry
      split_ifs
      · exact List.Perm.refl _
      · exact ((insertEntry_perm x ys).cons y).trans (List.Perm.swap x y ys)

theorem sortEntries_perm : ∀ (l : List (Json × Json)), (sortEntries l).Perm l
  | [] => List.Perm.refl _
  | x :: xs =>
      (insertEntry_perm x (sortEntries xs)).trans ((sortEntries_perm xs).cons x)

theorem jsonKeyLe_trans_num (xk yk zk : Json)
    (hx : ∃ i : Int, xk = Json.num i) (hy : ∃ i : Int, yk = Json.num i)
    (hz : ∃ i : Int, zk = Json.num i)
    (h1 : jsonKeyLe xk yk = true) (h2 : jsonKeyLe yk zk = true) :
    jsonKeyLe xk zk = true := by
  obtain ⟨x, rfl⟩ := hx
  obtain ⟨y, rfl⟩ := hy
  obtain ⟨z, rfl⟩ := hz
  revert h1 h2
  unfold jsonKeyLe
  simp only [decide_eq_true_eq]
  omega

theorem insertEntry_sorted (x : Json × Json) (hx : ∃ i : Int, x.1 = Json.num i) :
    ∀ (l : List (Json × Json)),
      (∀ kv ∈ l, ∃ i : Int, kv.1 = Json.num i) →
      List.Pairwise (fun a b => jsonKeyLe a.1 b.1 = true) l →
      List.Pairwise (fun a b => jsonKeyLe a.1 b.1 = true) (insertEntry x l)
  | [], _, _ => by simp [insertEntry]
  | y :: ys, hnum, h => by
      unfold insertEntry
      obtain ⟨hy, hys⟩ := List.pairwise_cons.mp h
      split_ifs with hle
      · refine List.pairwise_cons.mpr ⟨?_, h⟩
        intro z hz
        rcases List.mem_cons.mp hz with rfl | hz2
        · exact hle
        · exact jsonKeyLe_trans_num x.1 y.1 z.1 hx (hnum y (by simp))
            (hnum z (List.mem_cons_of_mem y hz2)) hle (hy z hz2)
      · refine List.pairwise_cons.mpr ⟨?_,
          insertEntry_sorted x hx ys (fun kv hkv => hnum kv (List.mem_cons_of_mem y hkv)) hys⟩
        intro z hz
        have hmem := (insertEntry_perm x ys).mem_iff.mp hz
        rcases List.mem_cons.mp hmem with rfl | hz2
        · rcases jsonKeyLe_total z.1 y.1 with h1 | h1
          · exact absurd h1 hle
          · exact h1
        · exact hy z hz2

theorem sortEntries_sorted :
    ∀ (l : List (Json × Json)),
      (∀ kv ∈ l, ∃ i : Int, kv.1 = Json.num i) →
      List.Pairwise (fun a b => jsonKeyLe a.1 b.1 = true) (sortEntries l)
  | [], _ => by simp [sortEntries]
  | x :: xs, hnum =>
      insertEntry_sorted x (hnum x (by simp)) (sortEntries xs)
        (fun kv hkv => hnum kv
          (List.mem_cons_of_mem x ((sortEntries_perm xs).mem_iff.mp hkv)))
        (sortEntries_sorted xs fun kv hkv => hnum kv (List.mem_cons_of_mem x hkv))

theorem sorted_entries_unique (p q : List (Json × Json))
    (hperm : p.Perm q)
    (hp : List.Pairwise (fun a b => jsonKeyLe a.1 b.1 = true) p)
    (hq : List.Pairwise (fun a b => jsonKeyLe a.1 b.1 = true) q)
    (hkeys : (p.map Prod.fst).Nodup)
    (hnum : ∀ kv ∈ p, ∃ x : Int, kv.1 = Json.num x) :
    p = q := by
  have hkq : (q.map Prod.fst).Nodup := (hperm.map Prod.fst).nodup_iff.mp hkeys
  have hnq : ∀ kv ∈ q, ∃ x : Int, kv.1 = Json.num x := fun kv hkv =>
    hnum kv (hperm.mem_iff.mpr hkv)
  have hne : List.Pairwise (fun a b : Json × Json => a.1 ≠ b.1) p :=
    List.pairwise_map.mp hkeys
  have hneq : List.Pairwise (fun a b : Json × Json => a.1 ≠ b.1) q :=
    List.pairwise_map.mp hkq
  haveI : IsAntisymm (Json × Json)
      (fun a b => ∃ x y : Int, a.1 = Json.num x ∧ b.1 = Json.num y ∧ x < y) := by
    constructor
    rintro a b ⟨x, y, hx, hy, hxy⟩ ⟨x2, y2, hx2, hy2, hxy2⟩
    rw [hx] at hy2
    rw [hy] at hx2
    simp only [Json.num.injEq] at hy2 hx2
    omega
  have hs1 : List.Pairwise
      (fun a b : Json × Json => ∃ x y : Int, a.1 = Json.num x ∧ b.1 = Json.num y ∧ x < y) p := by
    apply List.Pairwise.imp_of_mem ?_ (hp.and hne)
    rintro a b ha hb ⟨hle, hab⟩
    obtain ⟨x, hx⟩ := hnum a ha
    obtain ⟨y, hy⟩ := hnum b hb
    refine ⟨x, y, hx, hy, ?_⟩
    rw [hx, hy] at hle hab
    simp only [jsonKeyLe, decide_eq_true_eq] at hle
    have hxy : x ≠ y := fun he => hab (by rw [he])
    omega
  have hs2 : List.Pairwise
      (fun a b : Json × Json => ∃ x y : Int, a.1 = Json.num x ∧ b.1 = Json.num y ∧ x < y) q := by
    apply List.Pairwise.imp_of_mem ?_ (hq.and hneq)
    rintro a b ha hb ⟨hle, hab⟩
    obtain ⟨x, hx⟩ := hnq a ha
    obtain ⟨y, hy⟩ := hnq b hb
    refine ⟨x, y, hx, hy, ?_⟩
    rw [hx, hy] at hle hab
    simp only [jsonKeyLe, decide_eq_true_eq] at hle
    have hxy : x ≠ y := fun he => hab (by rw [he])
    omega
  exact List.eq_of_perm_of_sorted hperm hs1 hs2

end ZeroLink

namespace ZeroLink

theorem processAndFinalize_congr (s1 s2 : ScanState)
    (h1 : s1.totalChunks = s2.totalChunks)
    (h2 : s1.scannedChunks.length = s2.scannedChunks.length)
    (h3 : sortEntries s1.scannedChunks = sortEntries s2.scannedChunks) :
    (processAndFinalize s1).1 = (processAndFinalize s2).1 := by
  unfold processAndFinalize
  rw [h1, h2, h3]
  dsimp only
  split_ifs <;> rfl

/-- C4 (amended): for chunks that share one `sessionId` and `totalChunks`
and whose index determines their data — as holds for the chunks of one
encode call — the decoder's session id, declared total, received entries
(up to their index ordering, i.e. after the sort reassembly applies) and
finalize outcome depend only on the set of distinct chunk indices fed, not
on arrival order or multiplicity.  Only the soft-retry counters
(`lastScannedPart`, `consecutiveScans`) can differ, as the counterexample
shows. -/
theorem c4_order_independent (sid : String) (tot : Int) (f : Int → String)
    (l1 l2 : List Int)
    (hs : sid ≠ "") (ht : tot ≠ 0) (hf : ∀ k, f k ≠ "")
    (hset : ∀ k, k ∈ l1 ↔ k ∈ l2) :
    (feed initialScanState (l1.map fun k => mkChunkJson sid k tot (f k))).scanSessionId
      = (feed initialScanState (l2.map fun k => mkChunkJson sid k tot (f k))).scanSessionId ∧
    (feed initialScanState (l1.map fun k => mkChunkJson sid k tot (f k))).totalChunks
      = (feed initialScanState (l2.map fun k => mkChunkJson sid k tot (f k))).totalChunks ∧
    sortEntries (feed initialScanState
        (l1.map fun k => mkChunkJson sid k tot (f k))).scannedChunks
      = sortEntries (feed initialScanState
          (l2.map fun k => mkChunkJson sid k tot (f k))).scannedChunks ∧
    (processAndFinalize (feed initialScanState
        (l1.map fun k => mkChunkJson sid k tot (f k)))).1
      = (processAndFinalize (feed initialScanState
          (l2.map fun k => mkChunkJson sid k tot (f k)))).1 := by
  by_cases hl1 : l1 = []
  · have hl2 : l2 = [] := by
      cases l2 with
      | nil => rfl
      | cons a t =>
          have := (hset a).mpr (by simp)
          rw [hl1] at this
          simp at this
    subst hl1
    subst hl2
    exact ⟨rfl, rfl, rfl, rfl⟩
  · have hl2 : l2 ≠ [] := by
      intro h
      apply hl1
      cases l1 with
      | nil => rfl
      | cons a t =>
          have := (hset a).mp (by simp)
          rw [h] at this
          simp at this
    obtain ⟨ks1, hnd1, hm1, hsid1, htot1, hch1⟩ := feedK_char_init sid tot f hs ht hf l1 hl1
    obtain ⟨ks2, hnd2, hm2, hsid2, htot2, hch2⟩ := feedK_char_init sid tot f hs ht hf l2 hl2
    have hksperm : ks1.Perm ks2 :=
      (List.perm_ext_iff_of_nodup hnd1 hnd2).mpr
        (fun a => (hm1 a).trans ((hset a).trans (hm2 a).symm))
    have hcperm : (feed initialScanState
          (l1.map fun k => mkChunkJson sid k tot (f k))).scannedChunks.Perm
        (feed initialScanState (l2.map fun k => mkChunkJson sid k tot (f k))).scannedChunks := by
      rw [hch1, hch2]
      exact hksperm.map _
    have hnum1 : ∀ kv ∈ (feed initialScanState
        (l1.map fun k => mkChunkJson sid k tot (f k))).scannedChunks,
        ∃ x : Int, kv.1 = Json.num x := by
      rw [hch1]
      intro kv hkv
      obtain ⟨k, _, rfl⟩ := List.mem_map.mp hkv
      exact ⟨k, rfl⟩
    have hnum2 : ∀ kv ∈ (feed initialScanState
        (l2.map fun k => mkChunkJson sid k tot (f k))).scannedChunks,
        ∃ x : Int, kv.1 = Json.num x := by
      rw [hch2]
      intro kv hkv
      obtain ⟨k, _, rfl⟩ := List.mem_map.mp hkv
      exact ⟨k, rfl⟩
    have hkeys1 : ((feed initialScanState
        (l1.map fun k => mkChunkJson sid k tot (f k))).scannedChunks.map Prod.fst).Nodup := by
      rw [hch1, List.map_map]
      exact hnd1.map fun a b hab => by simpa [Json.num.injEq] using hab
    have hsorted : sortEntries (feed initialScanState
          (l1.map fun k => mkChunkJson sid k tot (f k))).scannedChunks
        = sortEntries (feed initialScanState
            (l2.map fun k => mkChunkJson sid k tot (f k))).scannedChunks := by
      apply sorted_entries_unique
      · exact (sortEntries_perm _).trans (hcperm.trans (sortEntries_perm _).symm)
      · exact sortEntries_sorted _ fun kv hkv => hnum1 kv hkv
      · exact sortEntries_sorted _ fun kv hkv => hnum2 kv hkv
      · exact ((sortEntries_perm _).map Prod.fst).nodup_iff.mpr hkeys1
      · exact fun kv hkv => hnum1 kv ((sortEntries_perm _).mem_iff.mp hkv)
    refine ⟨hsid1.trans hsid2.symm, htot1.trans htot2.symm, hsorted, ?_⟩
    exact processAndFinalize_congr _ _ (htot1.trans htot2.symm) hcperm.length_eq hsorted

end ZeroLink

namespace ZeroLink

theorem c4_order_independent_witness :
    (("A" : String) ≠ "" ∧ (2 : Int) ≠ 0 ∧ (∀ k : Int, (fun _ : Int => "x") k ≠ "") ∧
      (∀ k : Int, k ∈ ([1, 2] : List Int) ↔ k ∈ ([2, 1, 1] : List Int))) ∧
    sortEntries (feed initialScanState
        (([1, 2] : List Int).map fun k => mkChunkJson "A" k 2 ((fun _ : Int => "x") k))).scannedChunks
      = sortEntries (feed initialScanState
          (([2, 1, 1] : List Int).map fun k => mkChunkJson "A" k 2 ((fun _ : Int => "x") k))).scannedChunks ∧
    (processAndFinalize (feed initialScanState
        (([1, 2] : List Int).map fun k => mkChunkJson "A" k 2 ((fun _ : Int => "x") k)))).1
      = (processAndFinalize (feed initialScanState
          (([2, 1, 1] : List Int).map fun k => mkChunkJson "A" k 2 ((fun _ : Int => "x") k)))).1 := by
  have hmem : ∀ k : Int, k ∈ ([1, 2] : List Int) ↔ k ∈ ([2, 1, 1] : List Int) := by
    intro k
    simp only [List.mem_cons, List.not_mem_nil, or_false]
    tauto
  have hmain := c4_order_independent "A" 2 (fun _ : Int => "x") [1, 2] [2, 1, 1]
    (by decide) (by decide) (fun k => by simp) hmem
  exact ⟨⟨by decide, by decide, fun k => by simp, hmem⟩, hmain.2.2.1, hmain.2.2.2⟩

end ZeroLink
